import Mathlib

/-!
Verification of the satellite-pass calibration and beam-mapping pipeline of the
`mwa-satellites` repository.  The Python sources are embedded shallowly: numpy
arrays become `List ℚ` (or `List (List ℚ)` for power matrices), machine floats
become exact rationals, and operations that raise Python exceptions or produce
numpy NaNs are modelled with `Option`.
-/

namespace MwaSat

/-- Monadic map over `Option`: models a numpy/scipy vectorised call that raises
(or yields NaN) as soon as any element fails. -/
def mapOpt (f : α → Option β) : List α → Option (List β)
  | [] => some []
  | a :: as =>
    match f a, mapOpt f as with
    | some b, some bs => some (b :: bs)
    | _, _ => none

theorem mapOpt_eq_some_of_forall (f : α → Option β) (g : α → β) :
    ∀ l : List α, (∀ a ∈ l, f a = some (g a)) → mapOpt f l = some (l.map g) := by
  intro l
  induction l with
  | nil => intro _; rfl
  | cons a as ih =>
    intro h
    have ha := h a (List.mem_cons_self a as)
    have hs := ih (fun x hx => h x (List.mem_cons_of_mem a hx))
    simp [mapOpt, ha, hs]

/-- Arithmetic mean (`np.mean`); Python raises / warns on empty input, callers
guard against it, so the empty list is mapped to `0`. -/
def meanQ (l : List ℚ) : ℚ := l.sum / l.length

/-- Insertion of an element into a sorted list, used to model numpy's sort. -/
def insSorted (x : ℚ) : List ℚ → List ℚ
  | [] => [x]
  | y :: ys => if x ≤ y then x :: y :: ys else y :: insSorted x ys

/-- Sorting as performed internally by `np.median`. -/
def sortQ : List ℚ → List ℚ
  | [] => []
  | x :: xs => insSorted x (sortQ xs)

/-- `np.median` of a flattened array: middle element for odd length, mean of
the two middle elements for even length; `none` models the NaN produced on an
empty array. -/
def medianQ (l : List ℚ) : Option ℚ :=
  let s := sortQ l
  let n := l.length
  if n = 0 then none
  else if n % 2 = 1 then some (s.getD (n / 2) 0)
  else some ((s.getD (n / 2 - 1) 0 + s.getD (n / 2) 0) / 2)

/-- `np.where(arr == v)[0][0]`: index of the first occurrence of `v`, `none`
models the `IndexError` raised when no element matches. -/
def npWhereFirst (v : ℚ) : List ℚ → Option ℕ
  | [] => none
  | x :: xs => if x = v then some 0 else (npWhereFirst v xs).map (· + 1)

/-- Python's `l[-11:-1]`: the ten elements preceding the final element
(fewer when the list is short). -/
def lastTenExclLast (l : List ℚ) : List ℚ := (l.drop (l.length - 11)).dropLast

/-- The last `n` elements of a list. -/
def lastN (n : ℕ) (l : List α) : List α := l.drop (l.length - n)

/-! ## Ephemeris Matcher: observation-window fragments

From `src/src/embers/sat_utils/chrono_ephem.py`, `save_chrono_ephem`
(lines 228-274).  For one resampled pass with time grid `t` and one
observation window `[s, e)` the code appends the clipped `time_array`
(together with the parallel alt/az arrays) according to a three-way case
split; `np.where(time_interp == obs_unix)[0][0]` raises when the window
boundary is not a grid point, which `none` models.  An empty `time_array`
(`some []`) means no fragment is appended for this window. -/

def fragment (s e : ℚ) (t : List ℚ) : Option (List ℚ) :=
  match t with
  | [] => none
  | t0 :: _ =>
    let tl := t.getLastD 0
    -- Case I: satpass occurs completely within the 30 min observation
    if s < t0 ∧ e > tl then some t
    -- Case II: satpass begins before the obs, but ends within it
    else if s > t0 ∧ s < tl ∧ e > tl then
      match npWhereFirst s t with
      | some i => some (t.drop i)
      | none => none
    -- Case III: satpass begins within the obs, but ends after it
    else if e > t0 ∧ e < tl ∧ s < t0 then
      match npWhereFirst e t with
      | some i => some (t.take (i + 1))
      | none => none
    else some []

/-- `np.arange(start, stop, step)`. -/
def arangeQ (start stop step : ℚ) : List ℚ :=
  (List.range (⌈(stop - start) / step⌉).toNat).map (fun k : ℕ => start + (k : ℚ) * step)

/-- Integer grid `a, a+1, …, a+n-1` (cast to `ℚ`), recursion-friendly form of
the resampled time grid at 1 Hz. -/
def gridN (a : ℤ) : ℕ → List ℚ
  | 0 => []
  | n + 1 => (a : ℚ) :: gridN (a + 1) n

/-- The 1 Hz resampled time grid between integers `a` (inclusive) and `b`
(exclusive), exactly `np.arange(a, b, 1.0)`. -/
def timeGrid (a b : ℤ) : List ℚ := arangeQ a b 1

theorem range_map_eq_gridN (a : ℤ) (n : ℕ) :
    (List.range n).map (fun k : ℕ => (a : ℚ) + (k : ℚ) * 1) = gridN a n := by
  induction n generalizing a with
  | zero => rfl
  | succ m ih =>
    rw [List.range_succ_eq_map]
    simp only [List.map_cons, List.map_map, gridN]
    congr 1
    · push_cast; ring
    · rw [← ih (a + 1)]
      apply List.map_congr_left
      intro k _
      simp only [Function.comp]
      push_cast
      ring

theorem timeGrid_eq_gridN (a b : ℤ) : timeGrid a b = gridN a (b - a).toNat := by
  unfold timeGrid arangeQ
  have hceil : (⌈((b : ℚ) - a) / 1⌉) = b - a := by
    rw [div_one]
    rw [show ((b : ℚ) - a) = ((b - a : ℤ) : ℚ) by push_cast; ring]
    exact Int.ceil_intCast _
  rw [hceil, range_map_eq_gridN]

theorem gridN_length (a : ℤ) (n : ℕ) : (gridN a n).length = n := by
  induction n generalizing a with
  | zero => rfl
  | succ m ih => simp [gridN, ih]

theorem gridN_ne_nil (a : ℤ) (n : ℕ) (h : 0 < n) : gridN a n ≠ [] := by
  cases n with
  | zero => omega
  | succ m => simp [gridN]

theorem mem_gridN (a : ℤ) (n : ℕ) (x : ℚ) :
    x ∈ gridN a n ↔ ∃ k : ℤ, a ≤ k ∧ k < a + n ∧ x = (k : ℚ) := by
  induction n generalizing a with
  | zero =>
    simp only [gridN, List.not_mem_nil, false_iff]
    push_neg
    intro k hk1 hk2
    omega
  | succ m ih =>
    simp only [gridN, List.mem_cons, ih]
    constructor
    · rintro (rfl | ⟨k, hk1, hk2, rfl⟩)
      · exact ⟨a, le_refl a, by push_cast; omega, rfl⟩
      · exact ⟨k, by omega, by push_cast at hk2 ⊢; omega, rfl⟩
    · rintro ⟨k, hk1, hk2, rfl⟩
      rcases eq_or_lt_of_le hk1 with rfl | hlt
      · exact Or.inl rfl
      · exact Or.inr ⟨k, by omega, by push_cast at hk2 ⊢; omega, rfl⟩

theorem gridN_head (a : ℤ) (n : ℕ) (h : 0 < n) :
    (gridN a n).head? = some (a : ℚ) := by
  cases n with
  | zero => omega
  | succ m => rfl

theorem gridN_getLast? (a : ℤ) (n : ℕ) (h : 0 < n) :
    (gridN a n).getLast? = some ((a + n - 1 : ℤ) : ℚ) := by
  induction n generalizing a with
  | zero => omega
  | succ m ih =>
    cases m with
    | zero => simp [gridN]
    | succ p =>
      have hrec := ih (a + 1) (by omega)
      rw [show gridN a (p + 1 + 1) = (a : ℚ) :: gridN (a + 1) (p + 1) from rfl]
      rw [show gridN (a + 1) (p + 1) = ((a + 1 : ℤ) : ℚ) :: gridN (a + 1 + 1) p from rfl] at hrec ⊢
      rw [List.getLast?_cons_cons, hrec]
      congr 2
      push_cast
      ring

theorem gridN_getLastD (a : ℤ) (n : ℕ) (h : 0 < n) :
    (gridN a n).getLastD 0 = ((a + n - 1 : ℤ) : ℚ) := by
  rw [List.getLastD_eq_getLast?, gridN_getLast? a n h]
  rfl

theorem npWhereFirst_gridN (a : ℤ) (n : ℕ) (c : ℤ) (h1 : a ≤ c) (h2 : c < a + n) :
    npWhereFirst (c : ℚ) (gridN a n) = some (c - a).toNat := by
  induction n generalizing a with
  | zero => omega
  | succ m ih =>
    simp only [gridN, npWhereFirst]
    rcases eq_or_lt_of_le h1 with rfl | hlt
    · simp
    · have hne : (a : ℚ) ≠ (c : ℚ) := by
        intro hc
        exact absurd (Int.cast_injective hc) (by omega)
      rw [if_neg (by exact_mod_cast hne.symm ∘ Eq.symm)]
      rw [ih (a + 1) (by omega) (by omega)]
      simp only [Option.map_some']
      congr 1
      omega

theorem gridN_drop (a : ℤ) (n i : ℕ) (h : i ≤ n) :
    (gridN a n).drop i = gridN (a + i) (n - i) := by
  induction i generalizing a n with
  | zero => simp
  | succ j ih =>
    cases n with
    | zero => omega
    | succ m =>
      simp only [gridN, List.drop_succ_cons]
      rw [ih (a + 1) m (by omega)]
      congr 1 <;> omega

theorem gridN_take (a : ℤ) (n i : ℕ) (h : i ≤ n) :
    (gridN a n).take i = gridN a i := by
  induction i generalizing a n with
  | zero => simp [gridN]
  | succ j ih =>
    cases n with
    | zero => omega
    | succ m =>
      simp only [gridN, List.take_succ_cons]
      rw [ih (a + 1) m (by omega)]

theorem fragment_cons (s e x : ℚ) (xs : List ℚ) :
    fragment s e (x :: xs) =
      (if s < x ∧ e > (x :: xs).getLastD 0 then some (x :: xs)
       else if s > x ∧ s < (x :: xs).getLastD 0 ∧ e > (x :: xs).getLastD 0 then
         match npWhereFirst s (x :: xs) with
         | some i => some ((x :: xs).drop i)
         | none => none
       else if e > x ∧ e < (x :: xs).getLastD 0 ∧ s < x then
         match npWhereFirst e (x :: xs) with
         | some i => some ((x :: xs).take (i + 1))
         | none => none
       else some []) := rfl

/-- Any fragment produced by the matcher is the whole grid, a tail of it, an
initial run of it, or empty. -/
theorem fragment_shapes (s e : ℚ) (t : List ℚ) (l : List ℚ)
    (h : fragment s e t = some l) :
    l = t ∨ (∃ i, l = t.drop i) ∨ (∃ i, l = t.take i) ∨ l = [] := by
  match t with
  | [] => simp [fragment] at h
  | x :: xs =>
    rw [fragment_cons] at h
    split_ifs at h with h1 h2 h3
    · exact Or.inl (Option.some_injective _ h).symm
    · revert h
      cases npWhereFirst s (x :: xs) with
      | none => intro h; cases h
      | some i =>
        intro h
        exact Or.inr (Or.inl ⟨i, (Option.some_injective _ h).symm⟩)
    · revert h
      cases npWhereFirst e (x :: xs) with
      | none => intro h; cases h
      | some i =>
        intro h
        exact Or.inr (Or.inr (Or.inl ⟨i + 1, (Option.some_injective _ h).symm⟩))
    · exact Or.inr (Or.inr (Or.inr (Option.some_injective _ h).symm))

theorem gridN_cons_getLastD (a : ℤ) (m : ℕ) :
    ((a : ℚ) :: gridN (a + 1) m).getLastD 0 = ((a + m : ℤ) : ℚ) := by
  have h := gridN_getLastD a (m + 1) (Nat.succ_pos m)
  rw [show gridN a (m + 1) = (a : ℚ) :: gridN (a + 1) m from rfl] at h
  rw [h]
  congr 1
  omega

/-- Case I value: a pass strictly inside the window is copied whole. -/
theorem fragment_gridN_whole (a : ℤ) (m : ℕ) (s e : ℤ) (hs : s < a) (he : a + m < e) :
    fragment (s : ℚ) (e : ℚ) (gridN a (m + 1)) = some (gridN a (m + 1)) := by
  rw [show gridN a (m + 1) = (a : ℚ) :: gridN (a + 1) m from rfl, fragment_cons]
  have hc1 : (s : ℚ) < (a : ℚ) ∧ (e : ℚ) > ((a : ℚ) :: gridN (a + 1) m).getLastD 0 := by
    rw [gridN_cons_getLastD]
    exact ⟨by exact_mod_cast hs, by exact_mod_cast he⟩
  rw [if_pos hc1]

/-- Case II value: a pass that starts before the window and ends inside it is
clipped to the tail of the grid starting at the window's start. -/
theorem fragment_gridN_tail (a : ℤ) (m : ℕ) (s e : ℤ)
    (h1 : a < s) (h2 : s < a + m) (h3 : a + m < e) :
    fragment (s : ℚ) (e : ℚ) (gridN a (m + 1)) = some (gridN s (a + m + 1 - s).toNat) := by
  rw [show gridN a (m + 1) = (a : ℚ) :: gridN (a + 1) m from rfl, fragment_cons]
  have hn1 : ¬((s : ℚ) < (a : ℚ) ∧ (e : ℚ) > ((a : ℚ) :: gridN (a + 1) m).getLastD 0) := by
    rintro ⟨hc, -⟩
    have : (a : ℚ) < (s : ℚ) := by exact_mod_cast h1
    exact absurd hc (not_lt.mpr (le_of_lt this))
  have hc2 : (s : ℚ) > (a : ℚ) ∧ (s : ℚ) < ((a : ℚ) :: gridN (a + 1) m).getLastD 0 ∧
      (e : ℚ) > ((a : ℚ) :: gridN (a + 1) m).getLastD 0 := by
    rw [gridN_cons_getLastD]
    exact ⟨by exact_mod_cast h1, by exact_mod_cast h2, by exact_mod_cast h3⟩
  rw [if_neg hn1, if_pos hc2]
  have hw : npWhereFirst (s : ℚ) ((a : ℚ) :: gridN (a + 1) m) = some (s - a).toNat := by
    have := npWhereFirst_gridN a (m + 1) s (by omega) (by omega)
    rwa [show gridN a (m + 1) = (a : ℚ) :: gridN (a + 1) m from rfl] at this
  rw [hw]
  show some (((a : ℚ) :: gridN (a + 1) m).drop (s - a).toNat) = _
  have hd : ((a : ℚ) :: gridN (a + 1) m).drop (s - a).toNat
      = gridN (a + ((s - a).toNat : ℤ)) ((m + 1) - (s - a).toNat) := by
    have := gridN_drop a (m + 1) (s - a).toNat (by omega)
    rwa [show gridN a (m + 1) = (a : ℚ) :: gridN (a + 1) m from rfl] at this
  rw [hd]
  congr 2 <;> omega

/-- Case III value: a pass that starts inside the window and ends after it is
clipped to the initial run of the grid up to the window's end. -/
theorem fragment_gridN_init (a : ℤ) (m : ℕ) (s e : ℤ)
    (h1 : a < e) (h2 : e < a + m) (h3 : s < a) :
    fragment (s : ℚ) (e : ℚ) (gridN a (m + 1)) = some (gridN a (e - a + 1).toNat) := by
  rw [show gridN a (m + 1) = (a : ℚ) :: gridN (a + 1) m from rfl, fragment_cons]
  have hn1 : ¬((s : ℚ) < (a : ℚ) ∧ (e : ℚ) > ((a : ℚ) :: gridN (a + 1) m).getLastD 0) := by
    rw [gridN_cons_getLastD]
    rintro ⟨-, hc⟩
    have : (e : ℚ) < ((a + m : ℤ) : ℚ) := by exact_mod_cast h2
    exact absurd hc (not_lt.mpr (le_of_lt this))
  have hn2 : ¬((s : ℚ) > (a : ℚ) ∧ (s : ℚ) < ((a : ℚ) :: gridN (a + 1) m).getLastD 0 ∧
      (e : ℚ) > ((a : ℚ) :: gridN (a + 1) m).getLastD 0) := by
    rintro ⟨hc, -⟩
    have : (s : ℚ) < (a : ℚ) := by exact_mod_cast h3
    exact absurd hc (not_lt.mpr (le_of_lt this))
  have hc3 : (e : ℚ) > (a : ℚ) ∧ (e : ℚ) < ((a : ℚ) :: gridN (a + 1) m).getLastD 0 ∧
      (s : ℚ) < (a : ℚ) := by
    rw [gridN_cons_getLastD]
    exact ⟨by exact_mod_cast h1, by exact_mod_cast h2, by exact_mod_cast h3⟩
  rw [if_neg hn1, if_neg hn2, if_pos hc3]
  have hw : npWhereFirst (e : ℚ) ((a : ℚ) :: gridN (a + 1) m) = some (e - a).toNat := by
    have := npWhereFirst_gridN a (m + 1) e (by omega) (by omega)
    rwa [show gridN a (m + 1) = (a : ℚ) :: gridN (a + 1) m from rfl] at this
  rw [hw]
  show some (((a : ℚ) :: gridN (a + 1) m).take ((e - a).toNat + 1)) = _
  have ht : ((a : ℚ) :: gridN (a + 1) m).take ((e - a).toNat + 1)
      = gridN a ((e - a).toNat + 1) := by
    have := gridN_take a (m + 1) ((e - a).toNat + 1) (by omega)
    rwa [show gridN a (m + 1) = (a : ℚ) :: gridN (a + 1) m from rfl] at this
  rw [ht, show (e - a + 1).toNat = (e - a).toNat + 1 from by omega]

/-- Residual case value: in any other configuration (in particular a wide pass
that both starts before the window and ends after it) nothing is appended. -/
theorem fragment_gridN_empty (a : ℤ) (m : ℕ) (s e : ℤ)
    (hn1 : ¬(s < a ∧ a + m < e))
    (hn2 : ¬(a < s ∧ s < a + m ∧ a + m < e))
    (hn3 : ¬(a < e ∧ e < a + m ∧ s < a)) :
    fragment (s : ℚ) (e : ℚ) (gridN a (m + 1)) = some [] := by
  rw [show gridN a (m + 1) = (a : ℚ) :: gridN (a + 1) m from rfl, fragment_cons]
  have hq1 : ¬((s : ℚ) < (a : ℚ) ∧ (e : ℚ) > ((a : ℚ) :: gridN (a + 1) m).getLastD 0) := by
    rw [gridN_cons_getLastD]
    rintro ⟨c1, c2⟩
    exact hn1 ⟨by exact_mod_cast c1, by exact_mod_cast c2⟩
  have hq2 : ¬((s : ℚ) > (a : ℚ) ∧ (s : ℚ) < ((a : ℚ) :: gridN (a + 1) m).getLastD 0 ∧
      (e : ℚ) > ((a : ℚ) :: gridN (a + 1) m).getLastD 0) := by
    rw [gridN_cons_getLastD]
    rintro ⟨c1, c2, c3⟩
    exact hn2 ⟨by exact_mod_cast c1, by exact_mod_cast c2, by exact_mod_cast c3⟩
  have hq3 : ¬((e : ℚ) > (a : ℚ) ∧ (e : ℚ) < ((a : ℚ) :: gridN (a + 1) m).getLastD 0 ∧
      (s : ℚ) < (a : ℚ)) := by
    rw [gridN_cons_getLastD]
    rintro ⟨c1, c2, c3⟩
    exact hn3 ⟨by exact_mod_cast c1, by exact_mod_cast c2, by exact_mod_cast c3⟩
  rw [if_neg hq1, if_neg hq2, if_neg hq3]

/-- Overlap case I of the matcher: the pass lies entirely inside the window
`[s, e)` (window start before the first grid instant, window end after the
last). -/
abbrev passInsideWindow (s e t0 tl : ℚ) : Prop := s < t0 ∧ e > tl

/-- Overlap case II: the pass starts before the window and ends inside it. -/
abbrev passEndsInWindow (s e t0 tl : ℚ) : Prop := s > t0 ∧ s < tl ∧ e > tl

/-- Overlap case III: the pass starts inside the window and ends after it. -/
abbrev passStartsInWindow (s e t0 tl : ℚ) : Prop := e > t0 ∧ e < tl ∧ s < t0

/-- A wide pass relative to a window: the pass starts before the window's
start and ends after the window's end. -/
abbrev passWideOverWindow (s e t0 tl : ℚ) : Prop := t0 < s ∧ e < tl

/-- The matcher appends a fragment for this window: the clipped `time_array`
is non-empty (and no exception is raised). -/
abbrev appendsFragment (s e : ℚ) (t : List ℚ) : Prop :=
  ∃ l, fragment s e t = some l ∧ l ≠ []

/-- C1.  In the Ephemeris Matcher (`save_chrono_ephem`), for a resampled pass
on the integer-second grid `a, …, b-1` and a window `[s, e)` with integral
bounds, a fragment is appended to the window's ephemeris exactly when one of
the three overlap cases holds — pass fully inside the window, pass starting
before the window and ending inside it, or pass starting inside the window
and ending after it — and a pass that both starts before the window's start
and ends after the window's end contributes no fragment. -/
theorem C1_matcher_three_overlap_cases (a b s e : ℤ) (hab : a < b) :
    (appendsFragment (s : ℚ) (e : ℚ) (timeGrid a b) ↔
      passInsideWindow (s : ℚ) (e : ℚ) (a : ℚ) ((b - 1 : ℤ) : ℚ) ∨
      passEndsInWindow (s : ℚ) (e : ℚ) (a : ℚ) ((b - 1 : ℤ) : ℚ) ∨
      passStartsInWindow (s : ℚ) (e : ℚ) (a : ℚ) ((b - 1 : ℤ) : ℚ)) ∧
    (passWideOverWindow (s : ℚ) (e : ℚ) (a : ℚ) ((b - 1 : ℤ) : ℚ) →
      fragment (s : ℚ) (e : ℚ) (timeGrid a b) = some []) := by
  obtain ⟨m, hm⟩ : ∃ m : ℕ, (b - a).toNat = m + 1 := ⟨(b - a).toNat - 1, by omega⟩
  have hgrid : timeGrid a b = gridN a (m + 1) := by rw [timeGrid_eq_gridN, hm]
  have hm' : (m : ℤ) = b - a - 1 := by omega
  have htl : ((b - 1 : ℤ) : ℚ) = ((a + m : ℤ) : ℚ) := by
    congr 1
    omega
  rw [hgrid, htl]
  constructor
  · constructor
    · rintro ⟨l, hl, hne⟩
      by_cases h1 : s < a ∧ a + m < e
      · exact Or.inl ⟨by exact_mod_cast h1.1, by exact_mod_cast h1.2⟩
      · by_cases h2 : a < s ∧ s < a + m ∧ a + m < e
        · exact Or.inr (Or.inl
            ⟨by exact_mod_cast h2.1, by exact_mod_cast h2.2.1, by exact_mod_cast h2.2.2⟩)
        · by_cases h3 : a < e ∧ e < a + m ∧ s < a
          · exact Or.inr (Or.inr
              ⟨by exact_mod_cast h3.1, by exact_mod_cast h3.2.1, by exact_mod_cast h3.2.2⟩)
          · rw [fragment_gridN_empty a m s e h1 h2 h3] at hl
            exact absurd (Option.some_injective _ hl).symm hne
    · rintro (h1 | h2 | h3)
      · obtain ⟨c1, c2⟩ := h1
        refine ⟨gridN a (m + 1),
          fragment_gridN_whole a m s e (by exact_mod_cast c1) (by exact_mod_cast c2), ?_⟩
        exact gridN_ne_nil a (m + 1) (Nat.succ_pos m)
      · obtain ⟨c1, c2, c3⟩ := h2
        have i1 : a < s := by exact_mod_cast c1
        have i2 : s < a + m := by exact_mod_cast c2
        have i3 : a + m < e := by exact_mod_cast c3
        refine ⟨gridN s (a + m + 1 - s).toNat, fragment_gridN_tail a m s e i1 i2 i3, ?_⟩
        exact gridN_ne_nil s _ (by omega)
      · obtain ⟨c1, c2, c3⟩ := h3
        have i1 : a < e := by exact_mod_cast c1
        have i2 : e < a + m := by exact_mod_cast c2
        have i3 : s < a := by exact_mod_cast c3
        refine ⟨gridN a (e - a + 1).toNat, fragment_gridN_init a m s e i1 i2 i3, ?_⟩
        exact gridN_ne_nil a _ (by omega)
  · rintro ⟨w1, w2⟩
    have i1 : a < s := by exact_mod_cast w1
    have i2 : e < a + m := by exact_mod_cast w2
    exact fragment_gridN_empty a m s e (by omega) (by omega) (by omega)

/-- Witness for C1 at concrete inputs: grid `0, …, 9`, window `[-5, 5)` falls
in overlap case III and appends a fragment, while window `[-5, 20)` does not
satisfy any case predicate here (it contains the pass: case I). -/
theorem C1_matcher_three_overlap_cases_witness :
    (0 : ℤ) < 10 ∧
      (appendsFragment ((-5 : ℤ) : ℚ) ((5 : ℤ) : ℚ) (timeGrid 0 10) ↔
        passInsideWindow ((-5 : ℤ) : ℚ) ((5 : ℤ) : ℚ) ((0 : ℤ) : ℚ) ((10 - 1 : ℤ) : ℚ) ∨
        passEndsInWindow ((-5 : ℤ) : ℚ) ((5 : ℤ) : ℚ) ((0 : ℤ) : ℚ) ((10 - 1 : ℤ) : ℚ) ∨
        passStartsInWindow ((-5 : ℤ) : ℚ) ((5 : ℤ) : ℚ) ((0 : ℤ) : ℚ) ((10 - 1 : ℤ) : ℚ)) :=
  ⟨by decide, (C1_matcher_three_overlap_cases 0 10 (-5) 5 (by decide)).1⟩

/-- A window with integral bounds: start and end unix instants. -/
abbrev windowTouchesPass (w : ℤ × ℤ) (a b : ℤ) : Prop := w.1 ≤ b - 1 ∧ a ≤ w.2

/-- A window overlapping the pass in one of the three handled cases. -/
abbrev windowHandled (w : ℤ × ℤ) (a b : ℤ) : Prop :=
  passInsideWindow (w.1 : ℚ) (w.2 : ℚ) (a : ℚ) ((b - 1 : ℤ) : ℚ) ∨
  passEndsInWindow (w.1 : ℚ) (w.2 : ℚ) (a : ℚ) ((b - 1 : ℤ) : ℚ) ∨
  passStartsInWindow (w.1 : ℚ) (w.2 : ℚ) (a : ℚ) ((b - 1 : ℤ) : ℚ)

/-- C2.  For a resampled pass on the grid `a, …, b-1` whose every instant is
covered by some observation window and which overlaps windows only in the
three handled cases, every fragment is a contiguous run of the resampled
time array, and the union of the fragments over all windows recovers the full
resampled time array. -/
theorem C2_fragment_contiguity_and_union (a b : ℤ) (W : List (ℤ × ℤ)) (hab : a < b)
    (hcover : ∀ x : ℤ, a ≤ x → x ≤ b - 1 → ∃ w ∈ W, w.1 ≤ x ∧ x < w.2)
    (hhandled : ∀ w ∈ W, windowTouchesPass w a b → windowHandled w a b) :
    (∀ w ∈ W, ∀ l, fragment (w.1 : ℚ) (w.2 : ℚ) (timeGrid a b) = some l →
      ∃ l₁ l₂, timeGrid a b = l₁ ++ l ++ l₂) ∧
    (∀ x : ℚ, x ∈ timeGrid a b ↔
      ∃ w ∈ W, ∃ l, fragment (w.1 : ℚ) (w.2 : ℚ) (timeGrid a b) = some l ∧ x ∈ l) := by
  obtain ⟨m, hm⟩ : ∃ m : ℕ, (b - a).toNat = m + 1 := ⟨(b - a).toNat - 1, by omega⟩
  have hgrid : timeGrid a b = gridN a (m + 1) := by rw [timeGrid_eq_gridN, hm]
  have hb1 : ((b - 1 : ℤ) : ℚ) = ((a + m : ℤ) : ℚ) := by congr 1; omega
  constructor
  · intro w _ l hl
    rcases fragment_shapes _ _ _ _ hl with rfl | ⟨i, rfl⟩ | ⟨i, rfl⟩ | rfl
    · exact ⟨[], [], by simp⟩
    · exact ⟨(timeGrid a b).take i, [], by simp⟩
    · exact ⟨[], (timeGrid a b).drop i, by simp⟩
    · exact ⟨[], timeGrid a b, by simp⟩
  · intro x
    constructor
    · intro hx
      rw [hgrid, mem_gridN] at hx
      obtain ⟨k, hk1, hk2, rfl⟩ := hx
      obtain ⟨w, hwW, hws, hwe⟩ := hcover k hk1 (by omega)
      have htouch : windowTouchesPass w a b := ⟨by omega, by omega⟩
      refine ⟨w, hwW, ?_⟩
      rcases hhandled w hwW htouch with hI | hII | hIII
      · obtain ⟨c1, c2⟩ := hI
        rw [hb1] at c2
        have i1 : w.1 < a := by exact_mod_cast c1
        have i2 : a + m < w.2 := by exact_mod_cast c2
        refine ⟨gridN a (m + 1), by rw [hgrid]; exact fragment_gridN_whole a m w.1 w.2 i1 i2, ?_⟩
        rw [mem_gridN]
        exact ⟨k, hk1, by omega, rfl⟩
      · obtain ⟨c1, c2, c3⟩ := hII
        rw [hb1] at c2 c3
        have i1 : a < w.1 := by exact_mod_cast c1
        have i2 : w.1 < a + m := by exact_mod_cast c2
        have i3 : a + m < w.2 := by exact_mod_cast c3
        refine ⟨gridN w.1 (a + m + 1 - w.1).toNat,
          by rw [hgrid]; exact fragment_gridN_tail a m w.1 w.2 i1 i2 i3, ?_⟩
        rw [mem_gridN]
        exact ⟨k, hws, by omega, rfl⟩
      · obtain ⟨c1, c2, c3⟩ := hIII
        rw [hb1] at c2
        have i1 : a < w.2 := by exact_mod_cast c1
        have i2 : w.2 < a + m := by exact_mod_cast c2
        have i3 : w.1 < a := by exact_mod_cast c3
        refine ⟨gridN a (w.2 - a + 1).toNat,
          by rw [hgrid]; exact fragment_gridN_init a m w.1 w.2 i1 i2 i3, ?_⟩
        rw [mem_gridN]
        exact ⟨k, hk1, by omega, rfl⟩
    · rintro ⟨w, -, l, hl, hxl⟩
      rcases fragment_shapes _ _ _ _ hl with rfl | ⟨i, rfl⟩ | ⟨i, rfl⟩ | rfl
      · exact hxl
      · exact List.mem_of_mem_drop hxl
      · exact List.mem_of_mem_take hxl
      · cases hxl

/-- Witness for C2 at concrete inputs: grid `0, …, 9`, chain of windows
`[-5, 5)` and `[5, 15)` covering the pass in cases III and II. -/
theorem C2_fragment_contiguity_and_union_witness :
    ((0 : ℤ) < 10 ∧
      (∀ x : ℤ, 0 ≤ x → x ≤ 10 - 1 →
        ∃ w ∈ [((-5 : ℤ), (5 : ℤ)), ((5 : ℤ), (15 : ℤ))], w.1 ≤ x ∧ x < w.2) ∧
      (∀ w ∈ [((-5 : ℤ), (5 : ℤ)), ((5 : ℤ), (15 : ℤ))],
        windowTouchesPass w 0 10 → windowHandled w 0 10)) ∧
    (∀ x : ℚ, x ∈ timeGrid 0 10 ↔
      ∃ w ∈ [((-5 : ℤ), (5 : ℤ)), ((5 : ℤ), (15 : ℤ))],
        ∃ l, fragment (w.1 : ℚ) (w.2 : ℚ) (timeGrid 0 10) = some l ∧ x ∈ l) := by
  have hcover : ∀ x : ℤ, 0 ≤ x → x ≤ 10 - 1 →
      ∃ w ∈ [((-5 : ℤ), (5 : ℤ)), ((5 : ℤ), (15 : ℤ))], w.1 ≤ x ∧ x < w.2 := by
    intro x hx1 hx2
    by_cases h : x < 5
    · exact ⟨(-5, 5), by simp, by omega, by omega⟩
    · exact ⟨(5, 15), by simp, by omega, by omega⟩
  have hhandled : ∀ w ∈ [((-5 : ℤ), (5 : ℤ)), ((5 : ℤ), (15 : ℤ))],
      windowTouchesPass w 0 10 → windowHandled w 0 10 := by
    intro w hw _
    rcases List.mem_pair.mp hw with rfl | rfl
    · exact Or.inr (Or.inr (by refine ⟨by norm_num, by norm_num, by norm_num⟩))
    · exact Or.inr (Or.inl (by refine ⟨by norm_num, by norm_num, by norm_num⟩))
  exact ⟨⟨by decide, hcover, hhandled⟩,
    (C2_fragment_contiguity_and_union 0 10 _ (by decide) hcover hhandled).2⟩

/-! ## Ephemeris Matcher: resampling (`interp_ephem`)

From `src/src/embers/sat_utils/chrono_ephem.py`, `interp_ephem` (lines
100-146).  `pif` stands for the float64 value of π used by `np.unwrap` and by
the final modulus `% (2 * np.pi)`; all theorems hold for any positive value
of this constant.  The `scipy.interpolate.interp1d` evaluation is embedded
for the `linear` interpolation kind (the code also accepts `cubic`; both
reproduce a constant azimuth exactly, which is the case exercised here), and
evaluation outside the knot range — where scipy raises — is `none`. -/

/-- `np.mod x y` (floored modulus) on rationals. -/
def qfmod (x y : ℚ) : ℚ := x - y * ⌊x / y⌋

/-- Worker for `np.unwrap`: walks the tail of the phase array carrying the
previous raw value and the accumulated phase correction. -/
def unwrapGo (pif : ℚ) : ℚ → ℚ → List ℚ → List ℚ
  | _, _, [] => []
  | prev, acc, x :: xs =>
    let d := x - prev
    let dd0 := qfmod (d + pif) (2 * pif) - pif
    let dd := if dd0 = -pif ∧ 0 < d then pif else dd0
    let ph := if |d| < pif then 0 else dd - d
    (x + (acc + ph)) :: unwrapGo pif x (acc + ph) xs

/-- `np.unwrap` with discontinuity `pif`: corrects jumps between consecutive
phases larger than `pif` by multiples of `2 * pif`. -/
def np_unwrap (pif : ℚ) : List ℚ → List ℚ
  | [] => []
  | p0 :: rest => p0 :: unwrapGo pif p0 0 rest

/-- Piecewise-linear interpolation over knot/value pairs, as evaluated by
`scipy.interpolate.interp1d(kind="linear")` on sorted knots; `none` models
the out-of-bounds `ValueError`. -/
def interpSegs : List (ℚ × ℚ) → ℚ → Option ℚ
  | [], _ => none
  | [(x, y)], q => if q = x then some y else none
  | (x1, y1) :: (x2, y2) :: rest, q =>
    if q < x1 then none
    else if q ≤ x2 then some (y1 + (y2 - y1) * (q - x1) / (x2 - x1))
    else interpSegs ((x2, y2) :: rest) q

/-- `interp1d(t_array, values, kind="linear")` evaluated at `q`. -/
def interp1d_linear (xs ys : List ℚ) (q : ℚ) : Option ℚ := interpSegs (xs.zip ys) q

/-- `interp_ephem`: resample a satellite pass onto the grid
`np.arange(ceil(t[0]), floor(t[-1]), 1/interp_freq)`, interpolating altitude
directly and azimuth after `np.unwrap`, then re-wrapping azimuth by
`% (2 * pif)`. -/
def interp_ephem (t_array s_alt s_az : List ℚ) (interp_freq pif : ℚ) :
    Option (List ℚ × List ℚ × List ℚ) :=
  match t_array.head?, t_array.getLast? with
  | some h, some l =>
    let start : ℤ := ⌈h⌉
    let stop : ℤ := ⌊l⌋
    let time_interp := arangeQ (start : ℚ) (stop : ℚ) (1 / interp_freq)
    let s_az_cont := np_unwrap pif s_az
    match mapOpt (interp1d_linear t_array s_alt) time_interp,
          mapOpt (interp1d_linear t_array s_az_cont) time_interp with
    | some sat_alt, some az_raw =>
      some (time_interp, sat_alt, az_raw.map (fun x => qfmod x (2 * pif)))
    | _, _ => none
  | _, _ => none

theorem qfmod_eq_self (x y : ℚ) (h1 : 0 ≤ x) (h2 : x < y) : qfmod x y = x := by
  have hy : 0 < y := lt_of_le_of_lt h1 h2
  have hfloor : ⌊x / y⌋ = 0 := by
    rw [Int.floor_eq_zero_iff]
    constructor
    · exact div_nonneg h1 (le_of_lt hy)
    · rwa [div_lt_one hy]
  rw [qfmod, hfloor]
  ring

theorem unwrapGo_const (pif c : ℚ) (hp : 0 < pif) :
    ∀ n : ℕ, unwrapGo pif c 0 (List.replicate n c) = List.replicate n c := by
  intro n
  induction n with
  | zero => rfl
  | succ m ih =>
    rw [List.replicate_succ, unwrapGo]
    have hd : c - c = 0 := sub_self c
    simp only [hd, abs_zero, if_pos hp, add_zero]
    rw [ih]

theorem np_unwrap_const (pif c : ℚ) (hp : 0 < pif) (n : ℕ) :
    np_unwrap pif (List.replicate n c) = List.replicate n c := by
  cases n with
  | zero => rfl
  | succ m =>
    rw [List.replicate_succ, np_unwrap, unwrapGo_const pif c hp m]

/-- Any query between the first and last knot of an integer-second knot grid
evaluates to `some` value. -/
theorem interpSegs_gridN_some (n : ℕ) :
    ∀ (a : ℤ) (ys : List ℚ) (q : ℚ), 0 < n → ys.length = n → (a : ℚ) ≤ q →
      q ≤ ((a + n - 1 : ℤ) : ℚ) → ∃ r, interpSegs ((gridN a n).zip ys) q = some r := by
  induction n with
  | zero => intro _ _ _ h; omega
  | succ m ih =>
    intro a ys q _ hlen hq1 hq2
    cases m with
    | zero =>
      obtain ⟨y, rfl⟩ : ∃ y, ys = [y] := by
        cases ys with
        | nil => simp at hlen
        | cons y t =>
          cases t with
          | nil => exact ⟨y, rfl⟩
          | cons z t => simp at hlen
      have hq : q = (a : ℚ) := by
        apply le_antisymm _ hq1
        have : ((a + (1 : ℕ) - 1 : ℤ) : ℚ) = (a : ℚ) := by congr 1; omega
        rwa [this] at hq2
      simp [gridN, interpSegs, hq]
    | succ p =>
      obtain ⟨y1, ys', rfl, hlen'⟩ : ∃ y1 ys', ys = y1 :: ys' ∧ ys'.length = p + 1 := by
        cases ys with
        | nil => simp at hlen
        | cons y t => exact ⟨y, t, rfl, by simpa using hlen⟩
      obtain ⟨y2, rest, rfl⟩ : ∃ y2 rest, ys' = y2 :: rest := by
        cases ys' with
        | nil => simp at hlen'
        | cons y t => exact ⟨y, t, rfl⟩
      rw [show gridN a (p + 1 + 1) = (a : ℚ) :: ((a + 1 : ℤ) : ℚ) :: gridN (a + 1 + 1) p from rfl]
      rw [List.zip_cons_cons, List.zip_cons_cons]
      rw [interpSegs]
      rw [if_neg (not_lt.mpr hq1)]
      by_cases hq : q ≤ ((a + 1 : ℤ) : ℚ)
      · rw [if_pos hq]
        exact ⟨_, rfl⟩
      · rw [if_neg hq]
        have hstep : ((a : ℚ) :: ((a + 1 : ℤ) : ℚ) :: gridN (a + 1 + 1) p).tail
            = gridN (a + 1) (p + 1) := rfl
        have := ih (a + 1) (y2 :: rest) q (Nat.succ_pos p) (by simpa using hlen')
          (le_of_lt (not_le.mp hq))
          (by
            have : ((a + 1 + (↑(p + 1) : ℤ) - 1 : ℤ) : ℚ) = ((a + (↑(p + 1 + 1) : ℤ) - 1 : ℤ) : ℚ) := by
              congr 1; push_cast; ring
            rw [this]
            exact hq2)
        rwa [show gridN (a + 1) (p + 1) = ((a + 1 : ℤ) : ℚ) :: gridN (a + 1 + 1) p from rfl,
          List.zip_cons_cons] at this

/-- On constant values the linear interpolant returns the constant exactly. -/
theorem interpSegs_gridN_const (n : ℕ) :
    ∀ (a : ℤ) (c q : ℚ), 0 < n → (a : ℚ) ≤ q → q ≤ ((a + n - 1 : ℤ) : ℚ) →
      interpSegs ((gridN a n).zip (List.replicate n c)) q = some c := by
  induction n with
  | zero => intro _ _ _ h; omega
  | succ m ih =>
    intro a c q _ hq1 hq2
    cases m with
    | zero =>
      have hq : q = (a : ℚ) := by
        apply le_antisymm _ hq1
        have : ((a + (1 : ℕ) - 1 : ℤ) : ℚ) = (a : ℚ) := by congr 1; omega
        rwa [this] at hq2
      simp [gridN, interpSegs, hq]
    | succ p =>
      rw [show gridN a (p + 1 + 1) = (a : ℚ) :: ((a + 1 : ℤ) : ℚ) :: gridN (a + 1 + 1) p from rfl]
      rw [show List.replicate (p + 1 + 1) c = c :: c :: List.replicate p c from rfl]
      rw [List.zip_cons_cons, List.zip_cons_cons]
      rw [interpSegs]
      rw [if_neg (not_lt.mpr hq1)]
      by_cases hq : q ≤ ((a + 1 : ℤ) : ℚ)
      · rw [if_pos hq]
        congr 1
        ring
      · rw [if_neg hq]
        have := ih (a + 1) c q (Nat.succ_pos p) (le_of_lt (not_le.mp hq))
          (by
            have : ((a + 1 + (↑(p + 1) : ℤ) - 1 : ℤ) : ℚ) = ((a + (↑(p + 1 + 1) : ℤ) - 1 : ℤ) : ℚ) := by
              congr 1; push_cast; ring
            rw [this]
            exact hq2)
        rwa [show gridN (a + 1) (p + 1) = ((a + 1 : ℤ) : ℚ) :: gridN (a + 1 + 1) p from rfl,
          show List.replicate (p + 1) c = c :: List.replicate p c from rfl,
          List.zip_cons_cons] at this

theorem mapOpt_some_lengths (f : α → Option β) :
    ∀ l : List α, (∀ a ∈ l, ∃ b, f a = some b) →
      ∃ ys, mapOpt f l = some ys ∧ ys.length = l.length := by
  intro l
  induction l with
  | nil => intro _; exact ⟨[], rfl, rfl⟩
  | cons a as ih =>
    intro h
    obtain ⟨b, hb⟩ := h a (List.mem_cons_self a as)
    obtain ⟨ys, hys, hlen⟩ := ih (fun x hx => h x (List.mem_cons_of_mem a hx))
    exact ⟨b :: ys, by simp [mapOpt, hb, hys], by simp [hlen]⟩

theorem map_const_eq_replicate (c : ℚ) :
    ∀ l : List ℚ, l.map (fun _ => c) = List.replicate l.length c := by
  intro l
  induction l with
  | nil => rfl
  | cons x xs ih => simp [ih, List.replicate_succ]

/-- Behaviour of `interp_ephem` on a 1 Hz pass of 601 raw samples with
constant azimuth: the resample grid drops the final instant (600 points),
altitude interpolation succeeds everywhere and azimuth is reproduced
exactly. -/
theorem interp_ephem_const_az_len (t0 : ℤ) (c pif : ℚ) (s_alt : List ℚ)
    (hlen : s_alt.length = 601) (hc0 : 0 ≤ c) (hc2 : c < 2 * pif) :
    ∃ sat_alt, interp_ephem (gridN t0 601) s_alt (List.replicate 601 c) 1 pif
        = some (gridN t0 600, sat_alt, List.replicate 600 c) ∧ sat_alt.length = 600 := by
  have hp : 0 < pif := by linarith [lt_of_le_of_lt hc0 hc2]
  have hh : (gridN t0 601).head? = some ((t0 : ℤ) : ℚ) := gridN_head t0 601 (by norm_num)
  have hl : (gridN t0 601).getLast? = some ((t0 + 600 : ℤ) : ℚ) := by
    rw [gridN_getLast? t0 601 (by norm_num)]
    have : (t0 + ((601 : ℕ) : ℤ) - 1 : ℤ) = t0 + 600 := by omega
    rw [this]
  have htg : arangeQ ((t0 : ℤ) : ℚ) (((t0 + 600 : ℤ) : ℤ) : ℚ) (1 / 1) = gridN t0 600 := by
    rw [show (1 / 1 : ℚ) = 1 from by norm_num]
    rw [show arangeQ ((t0 : ℤ) : ℚ) (((t0 + 600 : ℤ) : ℤ) : ℚ) 1 = timeGrid t0 (t0 + 600) from rfl]
    rw [timeGrid_eq_gridN]
    congr 1
    omega
  have hbound : ∀ q ∈ gridN t0 600, ((t0 : ℤ) : ℚ) ≤ q ∧ q ≤ ((t0 + ((601 : ℕ) : ℤ) - 1 : ℤ) : ℚ) := by
    intro q hq
    rw [mem_gridN] at hq
    obtain ⟨k, hk1, hk2, rfl⟩ := hq
    constructor
    · exact_mod_cast hk1
    · have : k ≤ t0 + ((601 : ℕ) : ℤ) - 1 := by omega
      exact_mod_cast this
  have haz : mapOpt (interp1d_linear (gridN t0 601) (List.replicate 601 c)) (gridN t0 600)
      = some (List.replicate 600 c) := by
    have hall : ∀ q ∈ gridN t0 600,
        interp1d_linear (gridN t0 601) (List.replicate 601 c) q = some ((fun _ => c) q) := by
      intro q hq
      obtain ⟨hq1, hq2⟩ := hbound q hq
      exact interpSegs_gridN_const 601 t0 c q (by norm_num) hq1 hq2
    rw [mapOpt_eq_some_of_forall _ _ _ hall, map_const_eq_replicate, gridN_length]
  obtain ⟨sat_alt, halt, hlen600⟩ :
      ∃ ys, mapOpt (interp1d_linear (gridN t0 601) s_alt) (gridN t0 600) = some ys ∧
        ys.length = (gridN t0 600).length := by
    apply mapOpt_some_lengths
    intro q hq
    obtain ⟨hq1, hq2⟩ := hbound q hq
    exact interpSegs_gridN_some 601 t0 s_alt q (by norm_num) hlen hq1 hq2
  refine ⟨sat_alt, ?_, by rw [hlen600, gridN_length]⟩
  rw [interp_ephem]
  rw [hh, hl]
  simp only [Int.ceil_intCast, Int.floor_intCast]
  rw [np_unwrap_const pif c hp 601]
  rw [htg, haz, halt]
  show some (gridN t0 600, sat_alt, (List.replicate 600 c).map (fun x => qfmod x (2 * pif)))
      = some (gridN t0 600, sat_alt, List.replicate 600 c)
  rw [List.map_replicate, qfmod_eq_self c (2 * pif) hc0 hc2]

/-- C3 (amended).  For every raw satellite pass sampled at 1 Hz for 600
seconds (601 raw samples on an integer-second grid) with constant azimuth,
`interp_ephem` with interpolation frequency 1 returns exactly 600 resampled
points — `np.arange(ceil(t[0]), floor(t[-1]), 1)` excludes the stop instant,
so the count is 600 rather than the 601 the specification expects — no
returned altitude or azimuth value is NaN (the interpolant is defined at
every grid point), and every returned azimuth equals the constant input
azimuth exactly. -/
theorem C3_interp_ephem_600_points (t0 : ℤ) (c pif : ℚ) (s_alt : List ℚ)
    (hlen : s_alt.length = 601) (hc0 : 0 ≤ c) (hc2 : c < 2 * pif) :
    ∃ time_interp sat_alt sat_az,
      interp_ephem (gridN t0 601) s_alt (List.replicate 601 c) 1 pif
        = some (time_interp, sat_alt, sat_az) ∧
      time_interp.length = 600 ∧ sat_alt.length = 600 ∧
      sat_az = List.replicate 600 c := by
  obtain ⟨sat_alt, heq, hlen'⟩ := interp_ephem_const_az_len t0 c pif s_alt hlen hc0 hc2
  exact ⟨gridN t0 600, sat_alt, List.replicate 600 c, heq, gridN_length t0 600, hlen', rfl⟩

/-- Witness for C3 at concrete inputs: start `t0 = 5`, azimuth `2`,
float-π stand-in `4`, constant altitude list of 601 samples. -/
theorem C3_interp_ephem_600_points_witness :
    ((List.replicate 601 (7 : ℚ)).length = 601 ∧ (0 : ℚ) ≤ 2 ∧ (2 : ℚ) < 2 * 4) ∧
    (∃ time_interp sat_alt sat_az,
      interp_ephem (gridN 5 601) (List.replicate 601 (7 : ℚ)) (List.replicate 601 2) 1 4
        = some (time_interp, sat_alt, sat_az) ∧
      time_interp.length = 600 ∧ sat_alt.length = 600 ∧
      sat_az = List.replicate 600 2) :=
  ⟨⟨List.length_replicate 601 7, by norm_num, by norm_num⟩,
    C3_interp_ephem_600_points 5 2 4 (List.replicate 601 7)
      (List.length_replicate 601 7) (by norm_num) (by norm_num)⟩

/-- Counterexample to C3 as stated: the synthetic pass `t = 0, …, 600`,
altitude rising linearly from `0` to `90` over the 600 seconds, constant
azimuth `1`, resampled at frequency 1, yields a time array of 600 points —
not the 601 points the claim asserts. -/
theorem C3_interp_ephem_not_601 :
    ∃ sat_alt,
      interp_ephem (gridN 0 601) ((gridN 0 601).map (fun x => x * (90 / 600)))
          (List.replicate 601 1) 1 4
        = some (gridN 0 600, sat_alt, List.replicate 600 1) ∧
      (gridN 0 600).length = 600 ∧ (600 : ℕ) ≠ 601 := by
  obtain ⟨sat_alt, heq, -⟩ := interp_ephem_const_az_len 0 1 4
    ((gridN 0 601).map (fun x => x * (90 / 600)))
    (by rw [List.length_map, gridN_length]) (by norm_num) (by norm_num)
  exact ⟨sat_alt, heq, gridN_length 0 600, by norm_num⟩

/-! ## Window Generator (`obs_times`)

From `src/src/embers/sat_utils/chrono_ephem.py`, `obs_times` (lines 20-97).
Dates are modelled as day numbers (days since the epoch), one local day being
86400 wall-clock seconds; a pytz time zone is modelled by the partial
function taking a naive local instant (in wall-clock seconds) to its UTC
offset, with `none` modelling the `NonExistentTimeError` / `AmbiguousTimeError`
that `localize(..., is_dst=None)` raises inside a DST transition.
`datetime.timestamp` of the localized instant is the wall-clock value minus
the offset. -/

/-- Naive local wall-clock instant of slot `j` (30-minute slots, `j < 48`) of
the `i`-th day after `startDay`. -/
def slotLocal (startDay : ℤ) (ij : ℕ × ℕ) : ℤ :=
  86400 * (startDay + ij.1) + 1800 * ij.2

/-- `obs_times`: for each day of the inclusive date range and each of the 48
half-hour slots, localize the wall-clock instant and convert it to a unix
timestamp; the end of each window is its start plus `30 * 60` seconds.
Returns `none` when any localization raises. -/
def obs_times (tz : ℤ → Option ℤ) (startDay stopDay : ℤ) :
    Option (List ℚ × List ℚ) :=
  let count := (stopDay - startDay + 1).toNat
  let slots := (List.range count).flatMap (fun i => (List.range 48).map (fun j => (i, j)))
  match mapOpt (fun ij => (tz (slotLocal startDay ij)).map
      (fun off => ((slotLocal startDay ij - off : ℤ) : ℚ))) slots with
  | some obs_unix => some (obs_unix, obs_unix.map (· + 30 * 60))
  | none => none

theorem slots_flatten (count : ℕ) :
    (((List.range count).flatMap (fun i => (List.range 48).map (fun j => (i, j)))).map
        (fun ij : ℕ × ℕ => 86400 * (ij.1 : ℤ) + 1800 * (ij.2 : ℤ)))
    = (List.range (48 * count)).map (fun k : ℕ => 1800 * (k : ℤ)) := by
  induction count with
  | zero => rfl
  | succ m ih =>
    rw [List.range_succ, List.flatMap_append, List.map_append, ih]
    rw [show 48 * (m + 1) = 48 * m + 48 from by ring, List.range_add, List.map_append]
    congr 1
    simp only [List.flatMap_cons, List.flatMap_nil, List.append_nil, List.map_map]
    apply List.map_congr_left
    intro j hj
    simp only [Function.comp]
    have : (j : ℤ) < 48 := by
      exact_mod_cast Nat.lt_of_lt_of_le (List.mem_range.mp hj) (le_refl 48)
    push_cast
    ring

/-- C4 (amended).  For every time zone whose UTC offset is one constant `off`
on all queried local instants (no DST transition inside the range — with a
transition in range, `localize(is_dst=None)` raises and no window list is
produced at all) and every `startDay ≤ stopDay`, `obs_times` returns exactly
`48 × (days + 1)` windows in chronological order, each window's end unix time
is its start plus 1800 seconds, and consecutive windows are contiguous and
gap-free. -/
theorem getD_map_range (N k : ℕ) (f : ℕ → ℚ) (hk : k < N) :
    ((List.range N).map f).getD k 0 = f k := by
  rw [List.getD_eq_getElem?_getD, List.getElem?_map, List.getElem?_range hk]
  rfl

theorem C4_obs_times_windows (off startDay stopDay : ℤ) (h : startDay ≤ stopDay) :
    ∃ starts ends, obs_times (fun _ => some off) startDay stopDay = some (starts, ends) ∧
      starts.length = 48 * ((stopDay - startDay).toNat + 1) ∧
      ends.length = starts.length ∧
      (∀ k, k < starts.length →
        ends.getD k 0 = starts.getD k 0 + 1800) ∧
      (∀ k, k + 1 < starts.length →
        starts.getD k 0 < starts.getD (k + 1) 0) ∧
      (∀ k, k + 1 < starts.length →
        ends.getD k 0 = starts.getD (k + 1) 0) := by
  have hcount : (stopDay - startDay + 1).toNat = (stopDay - startDay).toNat + 1 := by omega
  set count := (stopDay - startDay + 1).toNat with hc
  set slots := (List.range count).flatMap (fun i => (List.range 48).map (fun j => (i, j)))
    with hslots
  set L := (List.range (48 * count)).map
      (fun k : ℕ => ((86400 * startDay + 1800 * (k : ℤ) - off : ℤ) : ℚ)) with hLdef
  have hmap : mapOpt (fun ij => (some off).map
      (fun o => ((slotLocal startDay ij - o : ℤ) : ℚ))) slots
      = some (slots.map (fun ij => ((slotLocal startDay ij - off : ℤ) : ℚ))) := by
    apply mapOpt_eq_some_of_forall
    intro ij _
    rfl
  have hstarts : slots.map (fun ij => ((slotLocal startDay ij - off : ℤ) : ℚ)) = L := by
    have hflat := slots_flatten count
    have hsplit : slots.map (fun ij => ((slotLocal startDay ij - off : ℤ) : ℚ))
        = (slots.map (fun ij : ℕ × ℕ => 86400 * (ij.1 : ℤ) + 1800 * (ij.2 : ℤ))).map
            (fun v : ℤ => ((86400 * startDay + v - off : ℤ) : ℚ)) := by
      rw [List.map_map]
      apply List.map_congr_left
      intro ij _
      simp only [Function.comp, slotLocal]
      congr 1
      ring
    rw [hsplit, hflat, List.map_map, hLdef]
    apply List.map_congr_left
    intro k _
    simp only [Function.comp]
  have hobs : obs_times (fun _ => some off) startDay stopDay
      = some (L, L.map (· + 30 * 60)) := by
    rw [obs_times]
    show (match mapOpt (fun ij => (some off).map
        (fun o => ((slotLocal startDay ij - o : ℤ) : ℚ))) slots with
      | some obs_unix => some (obs_unix, obs_unix.map (· + 30 * 60))
      | none => none) = _
    rw [hmap, hstarts]
  have hLlen : L.length = 48 * count := by
    rw [hLdef, List.length_map, List.length_range]
  have hLget : ∀ k, k < 48 * count →
      L.getD k 0 = ((86400 * startDay + 1800 * (k : ℤ) - off : ℤ) : ℚ) := by
    intro k hk
    rw [hLdef]
    exact getD_map_range _ _ _ hk
  have hEget : ∀ k, k < 48 * count →
      (L.map (· + 30 * 60)).getD k 0 = L.getD k 0 + 30 * 60 := by
    intro k hk
    rw [hLdef, List.map_map]
    rw [getD_map_range _ _ _ hk, getD_map_range _ _ _ hk]
    rfl
  refine ⟨L, L.map (· + 30 * 60), hobs, ?_, ?_, ?_, ?_, ?_⟩
  · rw [hLlen, hcount]
  · rw [List.length_map]
  · intro k hk
    rw [hLlen] at hk
    rw [hEget k hk]
    norm_num
  · intro k hk
    rw [hLlen] at hk
    rw [hLget k (by omega), hLget (k + 1) hk]
    have : (86400 * startDay + 1800 * (k : ℤ) - off : ℤ)
        < (86400 * startDay + 1800 * ((k : ℕ) + 1 : ℕ) - off : ℤ) := by
      push_cast
      omega
    exact_mod_cast this
  · intro k hk
    rw [hLlen] at hk
    rw [hEget k (by omega), hLget k (by omega), hLget (k + 1) hk]
    have : ((86400 * startDay + 1800 * (k : ℤ) - off : ℤ) : ℚ) + 30 * 60
        = ((86400 * startDay + 1800 * ((k : ℕ) + 1 : ℕ) - off : ℤ) : ℚ) := by
      push_cast
      ring
    exact this

/-- Witness for C4 at concrete inputs: fixed offset `28800` (UTC+8), a single
day. -/
theorem C4_obs_times_windows_witness :
    (0 : ℤ) ≤ 0 ∧
    (∃ starts ends, obs_times (fun _ => some 28800) 0 0 = some (starts, ends) ∧
      starts.length = 48 * (((0 : ℤ) - 0).toNat + 1) ∧
      ends.length = starts.length ∧
      (∀ k, k < starts.length → ends.getD k 0 = starts.getD k 0 + 1800) ∧
      (∀ k, k + 1 < starts.length → starts.getD k 0 < starts.getD (k + 1) 0) ∧
      (∀ k, k + 1 < starts.length → ends.getD k 0 = starts.getD (k + 1) 0)) :=
  ⟨le_refl 0, C4_obs_times_windows 28800 0 0 (le_refl 0)⟩

/-- A modelled DST time zone: offset `0` before the local instant 02:00, the
wall-clock hour [02:00, 03:00) does not exist (spring forward), offset
`-3600` afterwards; `localize(is_dst=None)` raises inside the gap. -/
def dstTz : ℤ → Option ℤ := fun L =>
  if 7200 ≤ L ∧ L < 10800 then none
  else if L < 7200 then some 0
  else some (-3600)

/-- Counterexample to C4 as stated: with a valid DST time zone whose
transition falls inside the requested single-day range, `obs_times` raises
(slot `02:00` cannot be localized) and returns no windows at all, instead of
the `48 × (days+1)` windows the claim asserts for every valid time zone. -/
theorem C4_obs_times_dst_raises :
    obs_times dstTz 0 0 = none ∧
    ¬∃ starts ends, obs_times dstTz 0 0 = some (starts, ends) ∧
      starts.length = 48 * (((0 : ℤ) - 0).toNat + 1) := by
  have h : obs_times dstTz 0 0 = none := by decide
  refine ⟨h, ?_⟩
  rintro ⟨starts, ends, hs, -⟩
  rw [h] at hs
  cases hs

/-! ## Channel Identifier (`window_chan_map.py`) and its noise floor

From `src/code/sat_channels/window_chan_map.py`.  A power matrix is a list of
rows (`n_samples × n_channels`); `np.amax(data, axis=0)` is the list of
per-column maxima, written by column index.  `np.std` appears only through
the comparison `chans_pow_max < sat_thresh * σ`; since `σ = sqrt(variance)`
is irrational, that comparison is embedded exactly by `ltSigmaMul` (squared
form) and proved equivalent to the real-valued comparison below. -/

/-- Row-major flattening of a matrix, as numpy reductions over the whole
array see it. -/
def flattenQ (m : List (List ℚ)) : List ℚ := m.flatten

/-- Population variance `np.std(data)**2` (`ddof = 0`). -/
def varianceQ (l : List ℚ) : ℚ := meanQ (l.map (fun x => (x - meanQ l) ^ 2))

/-- Exact decision of `x < c * sqrt v` for `c, v ≥ 0`, used for the noise
channel cut `chans_pow_max < sat_thresh * σ`. -/
def ltSigmaMul (c v x : ℚ) : Bool :=
  decide (x < 0) || (decide (0 ≤ x) && decide (x ^ 2 < c ^ 2 * v))

theorem ltSigmaMul_iff_lt_sqrt (c v x : ℚ) (hc : 0 ≤ c) (hv : 0 ≤ v) :
    ltSigmaMul c v x = true ↔ (x : ℝ) < (c : ℝ) * Real.sqrt (v : ℝ) := by
  have hv' : (0 : ℝ) ≤ (v : ℝ) := by exact_mod_cast hv
  have hc' : (0 : ℝ) ≤ (c : ℝ) := by exact_mod_cast hc
  unfold ltSigmaMul
  simp only [Bool.or_eq_true, Bool.and_eq_true, decide_eq_true_eq]
  constructor
  · rintro (hx | ⟨hx0, hx2⟩)
    · have h1 : (x : ℝ) < 0 := by exact_mod_cast hx
      have h2 : (0 : ℝ) ≤ (c : ℝ) * Real.sqrt v := mul_nonneg hc' (Real.sqrt_nonneg _)
      linarith
    · have hx0' : (0 : ℝ) ≤ (x : ℝ) := by exact_mod_cast hx0
      have hx2' : (x : ℝ) ^ 2 < (c : ℝ) ^ 2 * (v : ℝ) := by exact_mod_cast hx2
      by_contra hcon
      push_neg at hcon
      have hsq : ((c : ℝ) * Real.sqrt v) ^ 2 ≤ (x : ℝ) ^ 2 :=
        pow_le_pow_left₀ (mul_nonneg hc' (Real.sqrt_nonneg _)) hcon 2
      rw [mul_pow, Real.sq_sqrt hv'] at hsq
      linarith
  · intro h
    by_cases hx : x < 0
    · exact Or.inl hx
    · right
      have hx0 : (0 : ℚ) ≤ x := not_lt.mp hx
      refine ⟨hx0, ?_⟩
      have hx0' : (0 : ℝ) ≤ (x : ℝ) := by exact_mod_cast hx0
      have h2 : (x : ℝ) ^ 2 < ((c : ℝ) * Real.sqrt v) ^ 2 :=
        pow_lt_pow_left₀ h hx0' (by norm_num)
      rw [mul_pow, Real.sq_sqrt hv'] at h2
      exact_mod_cast h2

/-- `scipy.stats.median_absolute_deviation(x, axis=None)`: the default scale
constant is the literal `1.4826`. -/
def madScipy (l : List ℚ) : Option ℚ :=
  (medianQ l).bind fun μ =>
    (medianQ (l.map (fun x => |x - μ|))).map fun m => (14826 / 10000 : ℚ) * m

/-- One satellite pass entry of a chronological-ephemeris json file. -/
structure ChronoEntry where
  sat_id : ℤ
  time_array : List ℚ
  sat_alt : List ℚ
  sat_az : List ℚ
deriving DecidableEq

/-- Modelled from the spec: `time_filter` is imported from the module
`sat_channels`, which is not among the repository files; the spec says the
power/time matrices are cropped to the satellite's visible interval of the
trace.  Returns the first and last trace indices whose instants lie in
`[s_rise, s_set]`, or `None` when the pass does not intersect the trace. -/
def time_filter (s_rise s_set : ℚ) (times : List ℚ) : Option (ℕ × ℕ) :=
  let idxs := (List.range times.length).filter
    (fun i => decide (s_rise ≤ times.getD i 0) && decide (times.getD i 0 ≤ s_set))
  match idxs.head?, idxs.getLast? with
  | some i, some j => some (i, j)
  | _, _ => none

/-- Python `max` / `np.amax` over a sequence; `none` models the exception
raised on an empty one. -/
def pyMaxOpt : List ℚ → Option ℚ
  | [] => none
  | x :: xs => some (xs.foldl (fun a b => if a ≤ b then b else a) x)

/-- Python `min` / `np.amin` over a sequence; `none` models the exception
raised on an empty one. -/
def pyMinOpt : List ℚ → Option ℚ
  | [] => none
  | x :: xs => some (xs.foldl (fun a b => if b ≤ a then b else a) x)

/-- Column `j` of a power matrix. -/
def column (data : List (List ℚ)) (j : ℕ) : List ℚ := data.map (fun row => row.getD j 0)

/-- Number of frequency channels (`len(data[0])`). -/
def nChannels (data : List (List ℚ)) : ℕ := (data.headD []).length

/-- `data[:, noise_chans]` flattened: the samples of every channel whose peak
is below the satellite cut `sat_thresh * σ`. -/
def noiseFlat (sat_thresh : ℚ) (data : List (List ℚ)) (chans_pow_max : List ℚ) : List ℚ :=
  ((((List.range (nChannels data)).zip chans_pow_max).filter
      (fun jm => ltSigmaMul sat_thresh (varianceQ (flattenQ data)) jm.2)).map
    (fun jm => column data jm.1)).flatten

namespace SatChan

/-- `noise_floor` of `window_chan_map.py` (lines 29-52): classify noise-only
channels by `max < sat_thresh·σ`, take the median and MAD of their samples,
rescale the data to zero noise median and return it with the threshold
`(μ_noise - μ_noise) + noi_thresh * σ_noise`.  `none` models the NaNs numpy
produces when no noise channel remains (or a column is empty). -/
def noise_floor (sat_thresh noi_thresh : ℚ) (data : List (List ℚ)) :
    Option (List (List ℚ) × ℚ) :=
  match mapOpt (fun j => pyMaxOpt (column data j)) (List.range (nChannels data)) with
  | none => none
  | some chans_pow_max =>
    match medianQ (noiseFlat sat_thresh data chans_pow_max),
        madScipy (noiseFlat sat_thresh data chans_pow_max) with
    | some μ_noise, some σ_noise =>
      some (data.map (fun row => row.map (fun x => x - μ_noise)),
        (μ_noise - μ_noise) + noi_thresh * σ_noise)
    | _, _ => none

/-- Python `max(channel_power)`; callers only apply it to the non-empty
cropped channel column (Python raises on an empty sequence). -/
def pyMax (l : List ℚ) : ℚ := (pyMaxOpt l).getD 0

/-- Fraction of cropped samples at or above the noise threshold. -/
def window_occupancy (noise_threshold window_len : ℚ) (channel_power : List ℚ) : ℚ :=
  ((channel_power.filter (fun p => decide (noise_threshold ≤ p))).length : ℚ) / window_len

/-- The pass-edge guard of `power_ephem` (lines 116-151): when the crop
starts at the trace start, the ten cropped samples before the final cropped
sample must be quiet; when the crop ends at the trace end, the first ten
cropped samples must be quiet; otherwise both. -/
def chanGuard (noise_threshold : ℚ) (times times_c channel_power : List ℚ) : Bool :=
  if times.head? = times_c.head? then
    (lastTenExclLast channel_power).all (fun p => decide (p < noise_threshold))
  else if times.getLast? = times_c.getLast? then
    (channel_power.take 10).all (fun p => decide (p < noise_threshold))
  else
    (channel_power.take 10).all (fun p => decide (p < noise_threshold)) &&
      (lastTenExclLast channel_power).all (fun p => decide (p < noise_threshold))

/-- The candidate test applied to one channel of the cropped trace. -/
def chan_candidate (noise_threshold pow_thresh occ_thresh window_len : ℚ)
    (times times_c channel_power : List ℚ) : Bool :=
  decide (pow_thresh ≤ pyMax channel_power) &&
    decide (occ_thresh ≤ window_occupancy noise_threshold window_len channel_power) &&
    decide (window_occupancy noise_threshold window_len channel_power < 1) &&
    chanGuard noise_threshold times times_c channel_power

/-- The candidate channels of one satellite pass with their occupancies, in
channel order (`possible_chans` / `occu_list` of the source). -/
def possible_chans (noise_threshold pow_thresh occ_thresh window_len : ℚ)
    (times times_c : List ℚ) (power_c : List (List ℚ)) : List (ℕ × ℚ) :=
  (List.range (nChannels power_c)).filterMap fun s_chan =>
    if chan_candidate noise_threshold pow_thresh occ_thresh window_len
        times times_c (column power_c s_chan)
    then some (s_chan, window_occupancy noise_threshold window_len (column power_c s_chan))
    else none

/-- `possible_chans[occu_list.index(max(occu_list))]`: the first candidate
attaining the highest occupancy. -/
def good_chan (cands : List (ℕ × ℚ)) : ℕ :=
  match pyMaxOpt (cands.map Prod.snd) with
  | none => 0
  | some m => ((cands.find? (fun c => decide (c.2 = m))).getD (0, 0)).1

/-- `power_ephem` of `window_chan_map.py` (lines 55-181): noise floor, crop
to the pass, candidate scan, and the `return 0` sentinel for "no channel"
(also returned when the altitude threshold or the crop fails).  `none`
models an uncaught Python exception. -/
def power_ephem (sat_thresh noi_thresh alt_thresh pow_thresh occ_thresh : ℚ)
    (power : List (List ℚ)) (times : List ℚ)
    (chrono : List ChronoEntry) (sat_id : ℤ) : Option ℕ := do
  let pn ← noise_floor sat_thresh noi_thresh power
  let ent ← chrono.find? (fun c => decide (c.sat_id = sat_id))
  let rise_ephem ← ent.time_array.head?
  let set_ephem ← ent.time_array.getLast?
  let maxAlt ← pyMaxOpt ent.sat_alt
  if alt_thresh ≤ maxAlt then
    match time_filter rise_ephem set_ephem times with
    | some (w_start, w_stop) =>
      let power_c := (pn.1.drop w_start).take (w_stop + 1 - w_start)
      let times_c := (times.drop w_start).take (w_stop + 1 - w_start)
      let window_len : ℚ := ((w_stop + 1 - w_start : ℕ) : ℚ)
      let cands := possible_chans pn.2 pow_thresh occ_thresh window_len times times_c power_c
      if cands.length > 0 then pure (good_chan cands) else pure 0
    | none => pure 0
  else
    pure 0

/-- `window_chan_map`'s satellite loop: a `power_ephem` result different from
the sentinel `0` is recorded; an exception aborts the loop (the `except`
clause) and the map built so far is saved. -/
def window_chan_map_go (sat_thresh noi_thresh alt_thresh pow_thresh occ_thresh : ℚ)
    (power : List (List ℚ)) (times : List ℚ) (chrono : List ChronoEntry) :
    List ℤ → List (ℤ × ℕ) → List (ℤ × ℕ)
  | [], acc => acc
  | s :: rest, acc =>
    match power_ephem sat_thresh noi_thresh alt_thresh pow_thresh occ_thresh
        power times chrono s with
    | none => acc
    | some c =>
      if c ≠ 0 then
        window_chan_map_go sat_thresh noi_thresh alt_thresh pow_thresh occ_thresh
          power times chrono rest (acc ++ [(s, c)])
      else
        window_chan_map_go sat_thresh noi_thresh alt_thresh pow_thresh occ_thresh
          power times chrono rest acc

/-- `window_chan_map` of `window_chan_map.py` (lines 184-230) restricted to
one window's data: the persisted `ChannelMap`. -/
def window_chan_map (sat_thresh noi_thresh alt_thresh pow_thresh occ_thresh : ℚ)
    (power : List (List ℚ)) (times : List ℚ) (chrono : List ChronoEntry) :
    List (ℤ × ℕ) :=
  window_chan_map_go sat_thresh noi_thresh alt_thresh pow_thresh occ_thresh
    power times chrono (chrono.map (·.sat_id)) []

end SatChan

namespace RfeGain

/-- `noise_floor` of `rfe_gain.py` (lines 57-76): identical statistics, but
the data is returned unshifted and the threshold is
`μ_noise + noi_thresh * σ_noise`. -/
def noise_floor (sat_thresh noi_thresh : ℚ) (data : List (List ℚ)) :
    Option (List (List ℚ) × ℚ) :=
  match mapOpt (fun j => pyMaxOpt (column data j)) (List.range (nChannels data)) with
  | none => none
  | some chans_pow_max =>
    match medianQ (noiseFlat sat_thresh data chans_pow_max),
        madScipy (noiseFlat sat_thresh data chans_pow_max) with
    | some μ_noise, some σ_noise =>
      some (data, μ_noise + noi_thresh * σ_noise)
    | _, _ => none

end RfeGain

theorem getD_map_of_lt {α β : Type _} (f : α → β) (l : List α) (i : ℕ) (dα : α) (dβ : β)
    (hi : i < l.length) : (l.map f).getD i dβ = f (l.getD i dα) := by
  rw [List.getD_eq_getElem?_getD, List.getD_eq_getElem?_getD, List.getElem?_map]
  cases h : l[i]? with
  | none =>
    rw [List.getElem?_eq_none_iff] at h
    omega
  | some a => simp

/-- C10.  The Channel Identifier's `noise_floor` (shifted data, threshold
`noi_thresh * MAD`) and the Gain Calibrator's `noise_floor` (unshifted data,
threshold `μ_noise + noi_thresh * MAD`) classify exactly the same samples as
at-or-above the noise threshold. -/
theorem C10_noise_floor_classify_equiv (sat_thresh noi_thresh : ℚ)
    (data d₁ d₂ : List (List ℚ)) (t₁ t₂ : ℚ) (i j : ℕ)
    (h₁ : SatChan.noise_floor sat_thresh noi_thresh data = some (d₁, t₁))
    (h₂ : RfeGain.noise_floor sat_thresh noi_thresh data = some (d₂, t₂))
    (hi : i < data.length) (hj : j < (data.getD i []).length) :
    (t₁ ≤ (d₁.getD i []).getD j 0 ↔ t₂ ≤ (d₂.getD i []).getD j 0) := by
  unfold SatChan.noise_floor at h₁
  unfold RfeGain.noise_floor at h₂
  cases hmc : mapOpt (fun j => pyMaxOpt (column data j)) (List.range (nChannels data)) with
  | none =>
    rw [hmc] at h₁
    simp at h₁
  | some cpm =>
    rw [hmc] at h₁ h₂
    dsimp only at h₁ h₂
    cases hmed : medianQ (noiseFlat sat_thresh data cpm) with
    | none =>
      rw [hmed] at h₁
      simp at h₁
    | some μ =>
      cases hmad : madScipy (noiseFlat sat_thresh data cpm) with
      | none =>
        rw [hmed, hmad] at h₁
        simp at h₁
      | some σn =>
        rw [hmed, hmad] at h₁ h₂
        simp only [Option.some.injEq, Prod.mk.injEq] at h₁ h₂
        obtain ⟨hd₁, ht₁⟩ := h₁
        obtain ⟨hd₂, ht₂⟩ := h₂
        have hsample : (d₁.getD i []).getD j 0 = (data.getD i []).getD j 0 - μ := by
          rw [← hd₁]
          rw [getD_map_of_lt (fun row => row.map (fun x => x - μ)) data i [] [] hi]
          exact getD_map_of_lt (fun x => x - μ) (data.getD i []) j 0 0 hj
        rw [hsample, ← hd₂, ← ht₁, ← ht₂]
        constructor
        · intro h
          linarith
        · intro h
          linarith

/-- Witness for C10 at a concrete 2×2 power matrix. -/
theorem C10_noise_floor_classify_equiv_witness :
    (SatChan.noise_floor 1 3 [[0, 10], [2, 10]]
        = some ([[-1, 9], [1, 9]], (22239 / 5000 : ℚ)) ∧
      RfeGain.noise_floor 1 3 [[0, 10], [2, 10]]
        = some ([[0, 10], [2, 10]], (27239 / 5000 : ℚ)) ∧
      (0 : ℕ) < ([[(0 : ℚ), 10], [2, 10]]).length ∧
      (1 : ℕ) < (([[(0 : ℚ), 10], [2, 10]]).getD 0 []).length) ∧
    ((22239 / 5000 : ℚ) ≤ (([[(-1 : ℚ), 9], [1, 9]].getD 0 []).getD 1 0) ↔
      (27239 / 5000 : ℚ) ≤ (([[(0 : ℚ), 10], [2, 10]].getD 0 []).getD 1 0)) := by
  have h₁ : SatChan.noise_floor 1 3 [[0, 10], [2, 10]]
      = some ([[-1, 9], [1, 9]], (22239 / 5000 : ℚ)) := by
    norm_num [SatChan.noise_floor, noiseFlat, varianceQ, meanQ, flattenQ, medianQ,
      madScipy, sortQ, insSorted, mapOpt, ltSigmaMul, pyMaxOpt, column, nChannels,
      List.range_succ]
  have h₂ : RfeGain.noise_floor 1 3 [[0, 10], [2, 10]]
      = some ([[0, 10], [2, 10]], (27239 / 5000 : ℚ)) := by
    norm_num [RfeGain.noise_floor, noiseFlat, varianceQ, meanQ, flattenQ, medianQ,
      madScipy, sortQ, insSorted, mapOpt, ltSigmaMul, pyMaxOpt, column, nChannels,
      List.range_succ]
  have hi : (0 : ℕ) < ([[(0 : ℚ), 10], [2, 10]]).length := by simp
  have hj : (1 : ℕ) < (([[(0 : ℚ), 10], [2, 10]]).getD 0 []).length := by simp
  exact ⟨⟨h₁, h₂, hi, hj⟩,
    C10_noise_floor_classify_equiv 1 3 [[0, 10], [2, 10]] [[-1, 9], [1, 9]]
      [[0, 10], [2, 10]] (22239 / 5000) (27239 / 5000) 0 1 h₁ h₂ hi hj⟩

/-- The guard of `power_ephem` as a proposition, branch for branch: trailing
guard when the crop starts at the trace start, leading guard when it ends at
the trace end, both guards otherwise. -/
def codeGuardProp (nt : ℚ) (times times_c cp : List ℚ) : Prop :=
  (times.head? = times_c.head? ∧ ∀ p ∈ lastTenExclLast cp, p < nt) ∨
  (times.head? ≠ times_c.head? ∧ times.getLast? = times_c.getLast? ∧
    ∀ p ∈ cp.take 10, p < nt) ∨
  (times.head? ≠ times_c.head? ∧ times.getLast? ≠ times_c.getLast? ∧
    (∀ p ∈ cp.take 10, p < nt) ∧ ∀ p ∈ lastTenExclLast cp, p < nt)

/-- The guard as the claim words it: the (up to ten) trace samples
immediately before the pass rise together with the (up to ten) immediately
after the pass set — whichever of the two exist inside the trace — are all
below the noise threshold.  `colFull` is the channel's full noise-scaled
trace column and `[w_start, w_stop]` the cropped pass. -/
def specOutsideGuard (nt : ℚ) (colFull : List ℚ) (w_start w_stop : ℕ) : Prop :=
  (∀ p ∈ lastN 10 (colFull.take w_start), p < nt) ∧
  (∀ p ∈ (colFull.drop (w_stop + 1)).take 10, p < nt)

theorem mem_filterMap_fst (N : ℕ) (p : ℕ → Bool) (g : ℕ → ℚ) (c : ℕ) :
    c ∈ ((List.range N).filterMap (fun s => if p s then some (s, g s) else none)).map
        Prod.fst ↔ (c < N ∧ p c = true) := by
  simp only [List.mem_map, List.mem_filterMap, List.mem_range]
  constructor
  · rintro ⟨x, ⟨s, hs, hif⟩, hfst⟩
    by_cases hp : p s = true
    · rw [if_pos hp] at hif
      obtain rfl : (s, g s) = x := Option.some_injective _ hif
      obtain rfl : s = c := hfst
      exact ⟨hs, hp⟩
    · rw [if_neg hp] at hif
      cases hif
  · rintro ⟨hc, hp⟩
    exact ⟨(c, g c), ⟨c, hc, by rw [if_pos hp]⟩, rfl⟩

theorem chanGuard_iff (nt : ℚ) (times times_c cp : List ℚ) :
    SatChan.chanGuard nt times times_c cp = true ↔ codeGuardProp nt times times_c cp := by
  unfold SatChan.chanGuard codeGuardProp
  by_cases h1 : times.head? = times_c.head?
  · simp [h1, List.all_eq_true]
  · by_cases h2 : times.getLast? = times_c.getLast?
    · simp [h1, h2, List.all_eq_true]
    · simp [h1, h2, List.all_eq_true]

/-- C5 (amended).  In the Channel Identifier, a frequency channel is
classified as a candidate iff its peak power is at least `pow_thresh`, its
occupancy lies in `[occ_thresh, 1)`, and the in-crop edge samples are quiet:
the first ten samples of the cropped pass and/or the ten cropped samples
preceding the final cropped sample — the trailing guard alone when the crop
starts at the trace start, the leading guard alone when it ends at the trace
end (but not at the start), both otherwise — are all below the noise
threshold.  (The samples outside the crop, before the rise or after the set,
are not examined.) -/
theorem C5_candidate_classification (nt pt ot wl : ℚ) (times times_c : List ℚ)
    (power_c : List (List ℚ)) (c : ℕ) :
    c ∈ (SatChan.possible_chans nt pt ot wl times times_c power_c).map Prod.fst ↔
      (c < nChannels power_c ∧
       pt ≤ SatChan.pyMax (column power_c c) ∧
       ot ≤ SatChan.window_occupancy nt wl (column power_c c) ∧
       SatChan.window_occupancy nt wl (column power_c c) < 1 ∧
       codeGuardProp nt times times_c (column power_c c)) := by
  rw [show SatChan.possible_chans nt pt ot wl times times_c power_c
      = (List.range (nChannels power_c)).filterMap (fun s =>
          if SatChan.chan_candidate nt pt ot wl times times_c (column power_c s)
          then some (s, SatChan.window_occupancy nt wl (column power_c s)) else none)
    from rfl]
  rw [mem_filterMap_fst (nChannels power_c)
    (fun s => SatChan.chan_candidate nt pt ot wl times times_c (column power_c s))
    (fun s => SatChan.window_occupancy nt wl (column power_c s)) c]
  unfold SatChan.chan_candidate
  rw [Bool.and_eq_true, Bool.and_eq_true, Bool.and_eq_true]
  rw [decide_eq_true_eq, decide_eq_true_eq, decide_eq_true_eq]
  rw [chanGuard_iff]
  tauto

/-- Trace for the C5 counterexample: 13 one-second samples, channel 0 with a
spike one sample before the pass rise and one at the pass set, channel 1
pure noise. -/
def c5Power : List (List ℚ) :=
  [[0, 0], [20, 0], [0, 0], [0, 0], [0, 1], [0, 1], [0, 1], [0, 1], [0, 1],
   [0, 2], [0, 2], [0, 2], [20, 2]]

/-- `c5Power` rescaled to zero noise median (median 1). -/
def c5Shifted : List (List ℚ) :=
  [[-1, -1], [19, -1], [-1, -1], [-1, -1], [-1, 0], [-1, 0], [-1, 0], [-1, 0],
   [-1, 0], [-1, 1], [-1, 1], [-1, 1], [19, 1]]

/-- The 13-sample trace clock. -/
def c5Times : List ℚ := [0, 1, 2, 3, 4, 5, 6, 7, 8, 9, 10, 11, 12]

set_option maxHeartbeats 6400000 in
set_option maxRecDepth 16000 in
/-- Counterexample to C5 as stated: for the trace `c5Power` and a pass with
rise 2 and set 12, channel 0 is classified as a candidate (peak, occupancy
and the code's in-crop leading guard all pass), although the sample
immediately before the pass rise — inside the trace — is far above the noise
threshold, so the claim's before-rise/after-set condition fails. -/
theorem C5_guard_checks_inside_crop :
    SatChan.noise_floor 1 3 c5Power = some (c5Shifted, (22239 / 5000 : ℚ)) ∧
    time_filter 2 12 c5Times = some (2, 12) ∧
    (0 : ℕ) ∈ (SatChan.possible_chans (22239 / 5000) 10 (1 / 12) 11 c5Times
        ((c5Times.drop 2).take 11) ((c5Shifted.drop 2).take 11)).map Prod.fst ∧
    ¬ specOutsideGuard (22239 / 5000) (column c5Shifted 0) 2 12 := by
  have hcrop : (c5Shifted.drop 2).take 11
      = [[-1, -1], [-1, -1], [-1, 0], [-1, 0], [-1, 0], [-1, 0], [-1, 0],
         [-1, 1], [-1, 1], [-1, 1], [19, 1]] := by
    norm_num [c5Shifted]
  have htc : (c5Times.drop 2).take 11 = [2, 3, 4, 5, 6, 7, 8, 9, 10, 11, 12] := by
    norm_num [c5Times]
  have hcol0 : column ((c5Shifted.drop 2).take 11) 0
      = [-1, -1, -1, -1, -1, -1, -1, -1, -1, -1, 19] := by
    rw [hcrop]
    norm_num [column]
  have hcol1 : column ((c5Shifted.drop 2).take 11) 1
      = [-1, -1, 0, 0, 0, 0, 0, 1, 1, 1, 1] := by
    rw [hcrop]
    norm_num [column]
  have hcand0 : SatChan.chan_candidate (22239 / 5000) 10 (1 / 12) 11 c5Times
      ((c5Times.drop 2).take 11) (column ((c5Shifted.drop 2).take 11) 0) = true := by
    rw [hcol0, htc]
    norm_num [SatChan.chan_candidate, SatChan.chanGuard, SatChan.window_occupancy,
      SatChan.pyMax, pyMaxOpt, lastTenExclLast, c5Times]
  have hpc : SatChan.possible_chans (22239 / 5000) 10 (1 / 12) 11 c5Times
      ((c5Times.drop 2).take 11) ((c5Shifted.drop 2).take 11)
      = [(0, SatChan.window_occupancy (22239 / 5000) 11
            (column ((c5Shifted.drop 2).take 11) 0))] := by
    rw [show SatChan.possible_chans (22239 / 5000) 10 (1 / 12) 11 c5Times
        ((c5Times.drop 2).take 11) ((c5Shifted.drop 2).take 11)
        = (List.range (nChannels ((c5Shifted.drop 2).take 11))).filterMap (fun s =>
            if SatChan.chan_candidate (22239 / 5000) 10 (1 / 12) 11 c5Times
                ((c5Times.drop 2).take 11) (column ((c5Shifted.drop 2).take 11) s)
            then some (s, SatChan.window_occupancy (22239 / 5000) 11
                (column ((c5Shifted.drop 2).take 11) s))
            else none) from rfl]
    rw [show nChannels ((c5Shifted.drop 2).take 11) = 2 from by rw [hcrop]; rfl]
    rw [show List.range 2 = [0, 1] from by norm_num [List.range_succ]]
    have hcand1 : SatChan.chan_candidate (22239 / 5000) 10 (1 / 12) 11 c5Times
        ((c5Times.drop 2).take 11) (column ((c5Shifted.drop 2).take 11) 1) = false := by
      rw [hcol1, htc]
      norm_num [SatChan.chan_candidate, SatChan.chanGuard, SatChan.window_occupancy,
        SatChan.pyMax, pyMaxOpt, lastTenExclLast, c5Times]
    simp only [List.filterMap_cons, List.filterMap_nil]
    rw [hcand0, hcand1]
    simp
  refine ⟨?_, ?_, ?_, ?_⟩
  · norm_num [SatChan.noise_floor, noiseFlat, varianceQ, meanQ, flattenQ, medianQ,
      madScipy, sortQ, insSorted, mapOpt, ltSigmaMul, pyMaxOpt, column, nChannels,
      c5Power, c5Shifted, List.range_succ]
  · norm_num [time_filter, c5Times, List.range_succ]
  · rw [hpc]
    simp
  · rw [show column c5Shifted 0
      = [-1, 19, -1, -1, -1, -1, -1, -1, -1, -1, -1, -1, 19] from by
        norm_num [column, c5Shifted]]
    norm_num [specOutsideGuard, lastN]

/-- Trace for the C6 failing input: channel 0 spikes in the first two
samples of the pass (which spans the whole trace), channel 1 pure noise. -/
def c6Power : List (List ℚ) :=
  [[20, 0], [20, 0], [0, 0], [0, 0], [0, 1], [0, 1], [0, 1], [0, 1], [0, 1],
   [0, 2], [0, 2], [0, 2], [0, 2]]

/-- `c6Power` rescaled to zero noise median (median 1). -/
def c6Shifted : List (List ℚ) :=
  [[19, -1], [19, -1], [-1, -1], [-1, -1], [-1, 0], [-1, 0], [-1, 0], [-1, 0],
   [-1, 0], [-1, 1], [-1, 1], [-1, 1], [-1, 1]]

/-- Chronological ephemeris for the C6 failing input: satellite 1 rises at
the trace start and sets at its end. -/
def c6Chrono : List ChronoEntry := [⟨1, [0, 12], [45], [0, 0]⟩]

set_option maxHeartbeats 6400000 in
set_option maxRecDepth 16000 in
/-- C6.  Failing input for the `return 0` sentinel: on `c6Power`, channel 0
is a candidate and indeed the selected best channel, so `power_ephem`
returns it; but `window_chan_map` tests `sat_data != 0`, conflating channel
index 0 with "no channel", and persists a `ChannelMap` that omits the
satellite. -/
theorem C6_sentinel_drops_channel_zero :
    (0, (2 / 13 : ℚ)) ∈ SatChan.possible_chans (22239 / 5000) 10 (1 / 10)
        ((12 + 1 - 0 : ℕ) : ℚ) c5Times c5Times c6Shifted ∧
    SatChan.power_ephem 1 3 0 10 (1 / 10) c6Power c5Times c6Chrono 1 = some 0 ∧
    SatChan.window_chan_map 1 3 0 10 (1 / 10) c6Power c5Times c6Chrono = [] := by
  have hnf : SatChan.noise_floor 1 3 c6Power = some (c6Shifted, (22239 / 5000 : ℚ)) := by
    norm_num [SatChan.noise_floor, noiseFlat, varianceQ, meanQ, flattenQ, medianQ,
      madScipy, sortQ, insSorted, mapOpt, ltSigmaMul, pyMaxOpt, column, nChannels,
      c6Power, c6Shifted, List.range_succ]
  have hcol0 : column c6Shifted 0
      = [19, 19, -1, -1, -1, -1, -1, -1, -1, -1, -1, -1, -1] := by
    norm_num [column, c6Shifted]
  have hcol1 : column c6Shifted 1
      = [-1, -1, -1, -1, 0, 0, 0, 0, 0, 1, 1, 1, 1] := by
    norm_num [column, c6Shifted]
  have hcand0 : SatChan.chan_candidate (22239 / 5000) 10 (1 / 10)
      ((12 + 1 - 0 : ℕ) : ℚ) c5Times c5Times (column c6Shifted 0) = true := by
    rw [hcol0]
    norm_num [SatChan.chan_candidate, SatChan.chanGuard, SatChan.window_occupancy,
      SatChan.pyMax, pyMaxOpt, lastTenExclLast]
  have hcand1 : SatChan.chan_candidate (22239 / 5000) 10 (1 / 10)
      ((12 + 1 - 0 : ℕ) : ℚ) c5Times c5Times (column c6Shifted 1) = false := by
    rw [hcol1]
    norm_num [SatChan.chan_candidate, SatChan.chanGuard, SatChan.window_occupancy,
      SatChan.pyMax, pyMaxOpt, lastTenExclLast]
  have hocc0 : SatChan.window_occupancy (22239 / 5000) ((12 + 1 - 0 : ℕ) : ℚ)
      (column c6Shifted 0) = 2 / 13 := by
    rw [hcol0]
    norm_num [SatChan.window_occupancy]
  have hpc : SatChan.possible_chans (22239 / 5000) 10 (1 / 10)
      ((12 + 1 - 0 : ℕ) : ℚ) c5Times c5Times c6Shifted = [(0, 2 / 13)] := by
    rw [show SatChan.possible_chans (22239 / 5000) 10 (1 / 10)
        ((12 + 1 - 0 : ℕ) : ℚ) c5Times c5Times c6Shifted
        = (List.range (nChannels c6Shifted)).filterMap (fun s =>
            if SatChan.chan_candidate (22239 / 5000) 10 (1 / 10)
                ((12 + 1 - 0 : ℕ) : ℚ) c5Times c5Times (column c6Shifted s)
            then some (s, SatChan.window_occupancy (22239 / 5000)
                ((12 + 1 - 0 : ℕ) : ℚ) (column c6Shifted s))
            else none) from rfl]
    rw [show nChannels c6Shifted = 2 from rfl]
    rw [show List.range 2 = [0, 1] from by norm_num [List.range_succ]]
    simp only [List.filterMap_cons, List.filterMap_nil]
    rw [hcand0, hcand1, hocc0]
    simp
  have htf : time_filter 0 12 c5Times = some (0, 12) := by
    norm_num [time_filter, c5Times, List.range_succ]
  have hfind : c6Chrono.find? (fun c => decide (c.sat_id = 1))
      = some ⟨1, [0, 12], [45], [0, 0]⟩ := by
    norm_num [c6Chrono, List.find?]
  have hcropS : ((c6Shifted.drop 0).take (12 + 1 - 0)) = c6Shifted := by
    norm_num [c6Shifted]
  have hcropT : ((c5Times.drop 0).take (12 + 1 - 0)) = c5Times := by
    norm_num [c5Times]
  have hgc : SatChan.good_chan [(0, (2 / 13 : ℚ))] = 0 := by
    norm_num [SatChan.good_chan, pyMaxOpt, List.find?]
  have hpe : SatChan.power_ephem 1 3 0 10 (1 / 10) c6Power c5Times c6Chrono 1
      = some 0 := by
    rw [SatChan.power_ephem, hnf, hfind]
    simp only [Option.bind_eq_bind, Option.some_bind, pyMaxOpt]
    rw [show ([(0 : ℚ), 12] : List ℚ).head? = some 0 from rfl]
    rw [show ([(0 : ℚ), 12] : List ℚ).getLast? = some 12 from rfl]
    simp only [Option.some_bind]
    rw [if_pos (by norm_num : (0 : ℚ) ≤ ([] : List ℚ).foldl (fun a b => if a ≤ b then b else a) 45)]
    rw [htf]
    simp only [hcropS, hcropT, hpc]
    norm_num [hgc]
  refine ⟨?_, hpe, ?_⟩
  · rw [hpc]
    simp
  · rw [SatChan.window_chan_map]
    rw [show c6Chrono.map (·.sat_id) = [1] from rfl]
    rw [SatChan.window_chan_map_go, hpe]
    norm_num [SatChan.window_chan_map_go]

/-! ## Gain Calibrator (`rfe_gain.py`) and Beam Projector (`tile_maps.py`)

`fit_gain` (`rfe_gain.py` lines 80-97, and the identical `chisq_fit_gain` of
`embers/tile_maps/tile_maps.py`) runs `scipy.optimize.minimize` on
`chisqfunc(g) = sum((data - (model + g))**2)` from start value `0`; it is
embedded as that objective's exact minimiser, the mean of `data - model`
(`0` on empty input, where the objective is constant and the optimizer
returns its start value).  The chi-square p-value of `fit_test` is a
regularized incomplete gamma function, so the pipeline stages take the
p-value oracle `pvalOf` as a parameter; every theorem holds for all of its
values. -/

/-- Python `min` / `np.amin` over healpix indices; `none` models the
exception raised on an empty array. -/
def pyMinNat : List ℕ → Option ℕ
  | [] => none
  | x :: xs => some (xs.foldl (fun a b => if b ≤ a then b else a) x)

/-- `fit_gain(map_data, fee)`: the additive offset minimising
`sum((map_data - (fee + g))**2)`. -/
def fit_gain (map_data fee : List ℚ) : ℚ :=
  if map_data = [] then 0 else meanQ (map_data.zipWith (· - ·) fee)

namespace RfeGain

/-- `peak_filter = np.where(tile_pass >= -30)` applied to the paired
`(tile_pass, mwa_pass)` arrays (`rfe_gain.py` line 389). -/
def peak_sel (tile_pass mwa_pass : List ℚ) : List (ℚ × ℚ) :=
  (tile_pass.zip mwa_pass).filter (fun p => decide (-30 ≤ p.1))

/-- `mwa_pass` after the first gain fit: raised to the distorted tile power
level (`rfe_gain.py` lines 390-392). -/
def rfe_mwa_pass (tile_pass mwa_pass0 : List ℚ) : List ℚ :=
  mwa_pass0.map (· + fit_gain ((peak_sel tile_pass mwa_pass0).map Prod.fst)
    ((peak_sel tile_pass mwa_pass0).map Prod.snd))

/-- `dis_filter` then `null_filter` (`rfe_gain.py` lines 397-400): pairs with
`mwa_pass <= -30` whose model value is `>= -50`. -/
def rfe_dis_null (mwa_pass mwa_fee_pass : List ℚ) : List (ℚ × ℚ) :=
  ((mwa_pass.zip mwa_fee_pass).filter (fun p => decide (p.1 ≤ -30))).filter
    (fun p => decide (-50 ≤ p.2))

/-- The qualifying (non-distorted, non-null) pairs of a pass. -/
def rfe_qual (tile_pass mwa_pass0 mwa_fee0 : List ℚ) : List (ℚ × ℚ) :=
  rfe_dis_null (rfe_mwa_pass tile_pass mwa_pass0) mwa_fee0

/-- The second gain offset, fitting the model down to the undistorted data
(`rfe_gain.py` line 402). -/
def rfe_offset2 (tile_pass mwa_pass0 mwa_fee0 : List ℚ) : ℚ :=
  fit_gain ((rfe_qual tile_pass mwa_pass0 mwa_fee0).map Prod.fst)
    ((rfe_qual tile_pass mwa_pass0 mwa_fee0).map Prod.snd)

/-- The shifted model array `mwa_fee_pass + offset` (`rfe_gain.py` line 403). -/
def rfe_fee (tile_pass mwa_pass0 mwa_fee0 : List ℚ) : List ℚ :=
  mwa_fee0.map (· + rfe_offset2 tile_pass mwa_pass0 mwa_fee0)

/-- The goodness-of-fit p-value computed on the qualifying samples
(`rfe_gain.py` line 410). -/
def rfe_pval (tile_pass mwa_pass0 mwa_fee0 : List ℚ)
    (pvalOf : List ℚ → List ℚ → ℚ) : ℚ :=
  pvalOf ((rfe_qual tile_pass mwa_pass0 mwa_fee0).map Prod.fst)
    ((rfe_qual tile_pass mwa_pass0 mwa_fee0).map
      (fun p => p.2 + rfe_offset2 tile_pass mwa_pass0 mwa_fee0))

/-- The residual-accumulation stage of `rfe_gain` (lines 405-427): the pair
of arrays extended onto `resi_gain["pass_data"]` / `["pass_resi"]` —
`([], [])` when the pass is rejected, `none` when `np.amin`/`np.amax` raise
on an empty array. -/
def rfe_keep_residuals (tile_pass mwa_pass0 mwa_fee0 : List ℚ) (u : List ℕ)
    (times_pass : List ℚ) (pvalOf : List ℚ → List ℚ → ℚ) :
    Option (List ℚ × List ℚ) :=
  if 30 ≤ (rfe_qual tile_pass mwa_pass0 mwa_fee0).length then
    if (8 / 10 : ℚ) ≤ rfe_pval tile_pass mwa_pass0 mwa_fee0 pvalOf then
      match pyMinNat u with
      | none => none
      | some umin =>
        if umin ≤ 111 then
          match pyMaxOpt times_pass, pyMinOpt times_pass with
          | some tmax, some tmin =>
            if 600 ≤ tmax - tmin then
              some (rfe_mwa_pass tile_pass mwa_pass0,
                (rfe_fee tile_pass mwa_pass0 mwa_fee0).zipWith (· - ·)
                  (rfe_mwa_pass tile_pass mwa_pass0))
            else some ([], [])
          | _, _ => none
        else some ([], [])
    else some ([], [])
  else some ([], [])

end RfeGain

/-- C7.  In the Gain Calibrator, for a pass that passed the power and noise
thresholds, the residuals (model − measured) are accumulated into the
output population iff all four gates hold: p-value ≥ 0.8, at least 30
qualifying (non-distorted, non-null) points, the pass reaches a healpix
index ≤ 111 (within 10° of zenith), and the pass spans ≥ 600 seconds. -/
theorem C7_rfe_residual_gate (tile_pass mwa_pass0 mwa_fee0 : List ℚ) (u : List ℕ)
    (times_pass : List ℚ) (pvalOf : List ℚ → List ℚ → ℚ)
    (umin : ℕ) (tmin tmax : ℚ)
    (hu : pyMinNat u = some umin)
    (htx : pyMaxOpt times_pass = some tmax)
    (htn : pyMinOpt times_pass = some tmin) :
    ((30 ≤ (RfeGain.rfe_qual tile_pass mwa_pass0 mwa_fee0).length ∧
        (8 / 10 : ℚ) ≤ RfeGain.rfe_pval tile_pass mwa_pass0 mwa_fee0 pvalOf ∧
        umin ≤ 111 ∧ 600 ≤ tmax - tmin) →
      RfeGain.rfe_keep_residuals tile_pass mwa_pass0 mwa_fee0 u times_pass pvalOf
        = some (RfeGain.rfe_mwa_pass tile_pass mwa_pass0,
            (RfeGain.rfe_fee tile_pass mwa_pass0 mwa_fee0).zipWith (· - ·)
              (RfeGain.rfe_mwa_pass tile_pass mwa_pass0))) ∧
    (¬(30 ≤ (RfeGain.rfe_qual tile_pass mwa_pass0 mwa_fee0).length ∧
        (8 / 10 : ℚ) ≤ RfeGain.rfe_pval tile_pass mwa_pass0 mwa_fee0 pvalOf ∧
        umin ≤ 111 ∧ 600 ≤ tmax - tmin) →
      RfeGain.rfe_keep_residuals tile_pass mwa_pass0 mwa_fee0 u times_pass pvalOf
        = some ([], [])) := by
  unfold RfeGain.rfe_keep_residuals
  rw [hu, htx, htn]
  constructor
  · rintro ⟨h1, h2, h3, h4⟩
    rw [if_pos h1, if_pos h2]
    show (if umin ≤ 111 then _ else _) = _
    rw [if_pos h3]
    show (if 600 ≤ tmax - tmin then _ else _) = _
    rw [if_pos h4]
  · intro hneg
    by_cases h1 : 30 ≤ (RfeGain.rfe_qual tile_pass mwa_pass0 mwa_fee0).length
    · rw [if_pos h1]
      by_cases h2 : (8 / 10 : ℚ) ≤ RfeGain.rfe_pval tile_pass mwa_pass0 mwa_fee0 pvalOf
      · rw [if_pos h2]
        show (if umin ≤ 111 then _ else _) = _
        by_cases h3 : umin ≤ 111
        · rw [if_pos h3]
          show (if 600 ≤ tmax - tmin then _ else _) = _
          by_cases h4 : 600 ≤ tmax - tmin
          · exact absurd ⟨h1, h2, h3, h4⟩ hneg
          · rw [if_neg h4]
        · rw [if_neg h3]
      · rw [if_neg h2]
    · rw [if_neg h1]

/-- Witness for C7 at concrete inputs: thirty identical qualifying samples,
p-value oracle `1`, a near-zenith pixel and an 650-second span. -/
theorem C7_rfe_residual_gate_witness :
    (pyMinNat [5] = some 5 ∧ pyMaxOpt [0, 650] = some 650 ∧
      pyMinOpt [0, 650] = some 0 ∧
      30 ≤ (RfeGain.rfe_qual (List.replicate 30 (-40)) (List.replicate 30 (-40))
        (List.replicate 30 (-40))).length ∧
      (8 / 10 : ℚ) ≤ RfeGain.rfe_pval (List.replicate 30 (-40))
        (List.replicate 30 (-40)) (List.replicate 30 (-40)) (fun _ _ => 1) ∧
      (5 : ℕ) ≤ 111 ∧ (600 : ℚ) ≤ 650 - 0) ∧
    RfeGain.rfe_keep_residuals (List.replicate 30 (-40)) (List.replicate 30 (-40))
        (List.replicate 30 (-40)) [5] [0, 650] (fun _ _ => 1)
      = some (RfeGain.rfe_mwa_pass (List.replicate 30 (-40)) (List.replicate 30 (-40)),
          (RfeGain.rfe_fee (List.replicate 30 (-40)) (List.replicate 30 (-40))
              (List.replicate 30 (-40))).zipWith (· - ·)
            (RfeGain.rfe_mwa_pass (List.replicate 30 (-40)) (List.replicate 30 (-40)))) := by
  have hu : pyMinNat [5] = some 5 := rfl
  have htx : pyMaxOpt [(0 : ℚ), 650] = some 650 := by norm_num [pyMaxOpt]
  have htn : pyMinOpt [(0 : ℚ), 650] = some 0 := by norm_num [pyMinOpt]
  have hqual : (RfeGain.rfe_qual (List.replicate 30 (-40)) (List.replicate 30 (-40))
      (List.replicate 30 (-40))).length = 30 := by
    norm_num [RfeGain.rfe_qual, RfeGain.rfe_dis_null, RfeGain.rfe_mwa_pass,
      RfeGain.peak_sel, fit_gain, meanQ, List.replicate_succ]
  have hpv : RfeGain.rfe_pval (List.replicate 30 (-40)) (List.replicate 30 (-40))
      (List.replicate 30 (-40)) (fun _ _ => (1 : ℚ)) = 1 := rfl
  refine ⟨⟨hu, htx, htn, by rw [hqual], by rw [hpv]; norm_num, by norm_num, by norm_num⟩, ?_⟩
  exact (C7_rfe_residual_gate (List.replicate 30 (-40)) (List.replicate 30 (-40))
    (List.replicate 30 (-40)) [5] [0, 650] (fun _ _ => 1) 5 0 650 hu htx htn).1
    ⟨by rw [hqual], by rw [hpv]; norm_num, by norm_num, by norm_num⟩

namespace TileMaps

/-- The `--fit_thresh` command-line option of `tile_maps.py` (lines
1240-1245): parsed with default `0.9`; `project_tile_healpix` never reads
it. -/
def fit_thresh_default : ℚ := 9 / 10

/-- The per-pixel appends of `project_tile_healpix` (lines 1048-1108): fit a
single offset of the pass to the model, and — when the p-value of the fit
clears the hard-coded `0.8` — append `(pixel, mwa_pass_fit[i])` for every
pixel of the pass.  No sample-count or zenith gate appears. -/
def project_append (mwa_pass mwa_fee_pass : List ℚ) (u : List ℕ)
    (pvalOf : List ℚ → List ℚ → ℚ) : List (ℕ × ℚ) :=
  if (mwa_pass.map (· - fit_gain mwa_pass mwa_fee_pass)).length ≠ 0 then
    if (8 / 10 : ℚ) ≤ pvalOf (mwa_pass.map (· - fit_gain mwa_pass mwa_fee_pass))
        mwa_fee_pass then
      (List.range u.length).map (fun i =>
        (u.getD i 0, (mwa_pass.map (· - fit_gain mwa_pass mwa_fee_pass)).getD i 0))
    else []
  else []

end TileMaps

/-- C8 (amended).  In the Beam Projector, a pass's per-pixel samples are
appended to the map iff the post-fit p-value is at least the hard-coded
`0.8` — the `--fit_thresh` option (default `0.9`) is parsed but never used —
with no minimum sample count and no zenith-proximity requirement. -/
theorem C8_project_gate (mwa_pass mwa_fee_pass : List ℚ) (u : List ℕ)
    (pvalOf : List ℚ → List ℚ → ℚ) (px : ℕ) (val : ℚ)
    (hlen : mwa_pass.length = u.length) :
    ((px, val) ∈ TileMaps.project_append mwa_pass mwa_fee_pass u pvalOf ↔
      ((8 / 10 : ℚ) ≤ pvalOf (mwa_pass.map (· - fit_gain mwa_pass mwa_fee_pass))
          mwa_fee_pass ∧
        ∃ i, i < u.length ∧ u.getD i 0 = px ∧
          (mwa_pass.map (· - fit_gain mwa_pass mwa_fee_pass)).getD i 0 = val)) := by
  unfold TileMaps.project_append
  split_ifs with hz hp
  · simp only [List.mem_map, List.mem_range, Prod.mk.injEq]
    constructor
    · rintro ⟨i, hi, hpx, hval⟩
      exact ⟨hp, i, hi, hpx, hval⟩
    · rintro ⟨-, i, hi, hpx, hval⟩
      exact ⟨i, hi, hpx, hval⟩
  · simp only [List.not_mem_nil, false_iff, not_and]
    intro h
    exact absurd h hp
  · push_neg at hz
    rw [List.length_map] at hz
    simp only [List.not_mem_nil, false_iff, not_and, not_exists]
    intro _ i hi
    exact absurd hi (by omega)

/-- Witness for C8: a one-sample pass on pixel 7 with p-value oracle `1` is
appended. -/
theorem C8_project_gate_witness :
    ([(-40 : ℚ)].length = [(7 : ℕ)].length) ∧
    ((7, (-40 : ℚ)) ∈ TileMaps.project_append [-40] [-40] [7] (fun _ _ => 1)) := by
  refine ⟨rfl, (C8_project_gate [-40] [-40] [7] (fun _ _ => 1) 7 (-40) rfl).mpr
    ⟨by norm_num, 0, by norm_num, rfl, ?_⟩⟩
  norm_num [fit_gain, meanQ]

/-- Counterexample to C8 as stated: reading "the configured goodness-of-fit
threshold" as the parsed `--fit_thresh` option at its actual default `0.9`,
a pass with p-value `0.85` should be rejected — but the code compares
against a hard-coded `0.8` and appends it. -/
theorem C8_fit_thresh_is_ignored :
    (85 / 100 : ℚ) < TileMaps.fit_thresh_default ∧
    TileMaps.project_append [-40] [-40] [7] (fun _ _ => 85 / 100) = [(7, -40)] := by
  constructor
  · norm_num [TileMaps.fit_thresh_default]
  · norm_num [TileMaps.project_append, fit_gain, meanQ, List.range_succ]

/-! ## Beam Projector gain correction (`tile_maps.py` lines 1027-1037)

`gain_cal = np.poly1d(np.polyfit(...))`, `rfe_thresh = max(gain_cal.roots)`,
`tile_pass_rfe = [i + gain_cal(i) if i >= rfe_thresh else i for i in
tile_pass]`.  `np.poly1d` evaluation is Horner's scheme over the
highest-first coefficient list; the polynomial's real coefficients and its
greatest real root are taken abstractly. -/

/-- `np.poly1d(coeffs)` evaluated at `x` (Horner, highest power first). -/
def poly1d (coeffs : List ℚ) (x : ℚ) : ℚ :=
  coeffs.foldl (fun acc c => acc * x + c) 0

/-- `rfe_thresh = max(gain_cal.roots)`: `r` is a root and no root exceeds
it. -/
def isGreatestRoot (coeffs : List ℚ) (r : ℚ) : Prop :=
  poly1d coeffs r = 0 ∧ ∀ s, poly1d coeffs s = 0 → s ≤ r

/-- `tile_pass_rfe = [i + gain_cal(i) if i >= rfe_thresh else i for i in
tile_pass]` (`tile_maps.py` line 1037). -/
def tile_pass_rfe (coeffs : List ℚ) (rfe_thresh : ℚ) (tile_pass : List ℚ) : List ℚ :=
  tile_pass.map (fun i => if rfe_thresh ≤ i then i + poly1d coeffs i else i)

/-- C9.  Gain correction of the Beam Projector: every tile power strictly
below the greatest root `r` of the fitted gain polynomial passes through
unchanged; the additive correction `gain(i)` is applied exactly to values
`≥ r`; and at `i = r` itself the correction is also the identity, since
`gain(r) = 0`. -/
theorem C9_gain_curve_identity_below_root (coeffs : List ℚ) (r : ℚ)
    (tile_pass : List ℚ) (hroot : isGreatestRoot coeffs r) :
    (∀ k, k < tile_pass.length → tile_pass.getD k 0 < r →
      (tile_pass_rfe coeffs r tile_pass).getD k 0 = tile_pass.getD k 0) ∧
    (∀ k, k < tile_pass.length → r ≤ tile_pass.getD k 0 →
      (tile_pass_rfe coeffs r tile_pass).getD k 0
        = tile_pass.getD k 0 + poly1d coeffs (tile_pass.getD k 0)) ∧
    (∀ k, k < tile_pass.length → tile_pass.getD k 0 = r →
      (tile_pass_rfe coeffs r tile_pass).getD k 0 = tile_pass.getD k 0) := by
  refine ⟨?_, ?_, ?_⟩
  · intro k hk hlt
    rw [tile_pass_rfe, getD_map_of_lt _ _ k 0 0 hk, if_neg (not_le.mpr hlt)]
  · intro k hk hge
    rw [tile_pass_rfe, getD_map_of_lt _ _ k 0 0 hk, if_pos hge]
  · intro k hk heq
    rw [tile_pass_rfe, getD_map_of_lt _ _ k 0 0 hk, heq, if_pos le_rfl, hroot.1, add_zero]

/-- Witness for C9 at `gain(x) = x²` (coefficients `[1, 0, 0]`), greatest
root `0`, tile powers `[-1, 0, 2]`. -/
theorem C9_gain_curve_identity_below_root_witness :
    (isGreatestRoot [1, 0, 0] 0 ∧ (0 : ℕ) < 3 ∧ ([(-1 : ℚ), 0, 2].getD 0 0 < 0) ∧
      ((0 : ℚ) ≤ [(-1 : ℚ), 0, 2].getD 2 0) ∧ ([(-1 : ℚ), 0, 2].getD 1 0 = 0)) ∧
    (tile_pass_rfe [1, 0, 0] 0 [-1, 0, 2]).getD 0 0 = [(-1 : ℚ), 0, 2].getD 0 0 ∧
    (tile_pass_rfe [1, 0, 0] 0 [-1, 0, 2]).getD 2 0
      = [(-1 : ℚ), 0, 2].getD 2 0 + poly1d [1, 0, 0] ([(-1 : ℚ), 0, 2].getD 2 0) ∧
    (tile_pass_rfe [1, 0, 0] 0 [-1, 0, 2]).getD 1 0 = [(-1 : ℚ), 0, 2].getD 1 0 := by
  have hroot : isGreatestRoot [1, 0, 0] 0 := by
    constructor
    · norm_num [poly1d]
    · intro s hs
      simp only [poly1d, List.foldl_cons, List.foldl_nil] at hs
      have hs2 : s * s = 0 := by linear_combination hs
      have := mul_self_eq_zero.mp hs2
      simp [this]
  have h := C9_gain_curve_identity_below_root [1, 0, 0] 0 [-1, 0, 2] hroot
  refine ⟨⟨hroot, by norm_num, by norm_num [List.getD], by norm_num [List.getD],
    by norm_num [List.getD]⟩, ?_, ?_, ?_⟩
  · exact h.1 0 (by norm_num) (by norm_num [List.getD])
  · exact h.2.1 2 (by norm_num) (by norm_num [List.getD])
  · exact h.2.2 1 (by norm_num) (by norm_num [List.getD])

